import Mathlib

/-!
Shallow embedding of the order/catalog backend (`src/backend/app.js`) over the
schema of `src/backend/init.sql`, together with proofs about the claims of the
specification.

Modelling conventions:
* Monetary values (`price`, `total_amount`) are exact cent counts (`Int`);
  `DECIMAL(10,2)` column values are in bijection with such integers.
* The SQL `CHECK` constraints of `init.sql` (`price >= 0`, `stock >= 0`,
  `quantity > 0`, `total_amount >= 0`, the `status` enumeration) are modelled
  as guards on every `INSERT`/`UPDATE`: a statement whose new row violates a
  constraint fails, which the JS code surfaces through its `catch` branch.
* Redis cache keys `products:all` and `product:{id}` are modelled by the
  inductive `CacheKey` (string keys are in bijection with it); `SETEX` stores
  an absolute expiry `now + ttl` and `GET` treats expired entries as absent.
* Each cache call site gets an explicit success flag (`getOk`, `putOk`,
  `delOk`, ...): a `false` flag models the Redis promise rejecting, which the
  surrounding `try/catch` of the route turns into a 500 response.
* Timestamps (`created_at`, `updated_at`) are not modelled; `ORDER BY
  created_at DESC` is modelled as reverse insertion order.
* HTTP statuses are not modelled separately: a response is `Except.ok` with
  the route's payload, or `Except.error` with the route's error message.
-/

namespace ECom

/-- Row of the `products` table (timestamps omitted). -/
structure ProductRow where
  id : Nat
  name : String
  description : Option String
  price : Int
  category : String
  stock : Int
  image_url : Option String
  is_active : Bool
deriving Repr, DecidableEq

/-- Row of the `orders` table (timestamps omitted). -/
structure OrderRow where
  id : Nat
  customer_name : String
  customer_email : String
  total_amount : Int
  status : String
deriving Repr, DecidableEq

/-- Row of the `order_items` table (surrogate id and timestamp omitted). -/
structure OrderItemRow where
  order_id : Nat
  product_id : Nat
  quantity : Int
  price : Int
deriving Repr, DecidableEq

/-- The relational store: the three tables plus the `SERIAL` counters. -/
structure Store where
  products : List ProductRow
  orders : List OrderRow
  order_items : List OrderItemRow
  next_product_id : Nat
  next_order_id : Nat
deriving Repr, DecidableEq

/-- Cache keys used by the code: `products:all` and `product:{id}`. -/
inductive CacheKey where
  | productsAll : CacheKey
  | product (id : Nat) : CacheKey
deriving Repr, DecidableEq

/-- Values cached by the code: a single product row or the full active list. -/
inductive CacheValue where
  | one (p : ProductRow) : CacheValue
  | many (ps : List ProductRow) : CacheValue
deriving Repr, DecidableEq

/-- One Redis entry: key, serialized value, absolute expiry time. -/
structure CEntry where
  key : CacheKey
  val : CacheValue
  expiry : Nat
deriving Repr, DecidableEq

/-- The Redis cache state. -/
abbrev Cache := List CEntry

/-- Redis GET at time `now`: first entry with the key that has not expired. -/
def cacheGet (c : Cache) (now : Nat) (k : CacheKey) : Option CacheValue :=
  (c.find? (fun e => e.key == k && Nat.blt now e.expiry)).map (fun e => e.val)

/-- Raw lookup ignoring expiry (used to state cache-content invariants). -/
def cacheLookup (c : Cache) (k : CacheKey) : Option CacheValue :=
  (c.find? (fun e => e.key == k)).map (fun e => e.val)

/-- Redis SETEX: overwrite the key with a fresh value expiring at `now + ttl`. -/
def cacheSet (c : Cache) (k : CacheKey) (v : CacheValue) (expiry : Nat) : Cache :=
  { key := k, val := v, expiry := expiry } :: c.filter (fun e => e.key != k)

/-- Redis DEL: remove every entry for the key. -/
def cacheDel (c : Cache) (k : CacheKey) : Cache :=
  c.filter (fun e => e.key != k)

/-- JavaScript truthiness for an optional string field (empty string is falsy,
as is an absent field). -/
def truthyS : Option String → Bool
  | none => false
  | some s => s ≠ ""

/-- JavaScript truthiness for an optional numeric field (`0` is falsy, as is
an absent field). -/
def truthyI : Option Int → Bool
  | none => false
  | some n => n ≠ 0

/-- The `CHECK` constraints of the `products` table on a row. -/
def productOkRow (p : ProductRow) : Bool :=
  decide (0 ≤ p.price) && decide (0 ≤ p.stock)

/-- The status values admitted by the `orders.status` check constraint and by
the `PATCH /api/orders/:id/status` validation list. -/
def validStatuses : List String :=
  ["pending", "processing", "shipped", "delivered", "cancelled"]

/-- The `CHECK` constraints of the `orders` table on a row. -/
def orderOkRow (o : OrderRow) : Bool :=
  decide (0 ≤ o.total_amount) && validStatuses.contains o.status

/-- Source tag of a read response (`source: cache` / `source: database`). -/
inductive Src where
  | cache : Src
  | database : Src
deriving Repr, DecidableEq

/-- The rows of `SELECT ... FROM products WHERE is_active = true ORDER BY
created_at DESC` (reverse insertion order). -/
def activeProducts (s : Store) : List ProductRow :=
  (s.products.filter (fun p => p.is_active)).reverse

/-- The row of `SELECT ... FROM products WHERE id = $1 AND is_active = true`
(first matching row, if any). -/
def productQuery (s : Store) (i : Nat) : Option ProductRow :=
  (s.products.filter (fun p => p.id == i && p.is_active)).head?

/-- The price returned by `SELECT price FROM products WHERE id = $1` (no
active filter); `0` is a dummy for the no-row case, in which the JS code
throws before using any price. -/
def priceAt (ps : List ProductRow) (i : Nat) : Int :=
  match (ps.filter (fun p => p.id == i)).head? with
  | some p => p.price
  | none => 0

/-- `GET /api/products` (`app.js` lines 65-97): cache lookup of
`products:all`, on miss a store query cached for 300 seconds. A failing
cache call (flag `false`) lands in the catch branch: 500 response. -/
def listProducts (getOk putOk : Bool) (now : Nat) (s : Store) (c : Cache) :
    Except String (Src × CacheValue) × Cache :=
  if !getOk then (Except.error "Internal server error", c)
  else
    match cacheGet c now CacheKey.productsAll with
    | some v => (Except.ok (Src.cache, v), c)
    | none =>
      if !putOk then (Except.error "Internal server error", c)
      else
        (Except.ok (Src.database, CacheValue.many (activeProducts s)),
         cacheSet c CacheKey.productsAll (CacheValue.many (activeProducts s)) (now + 300))

/-- `GET /api/products/:id` (`app.js` lines 100-134): cache lookup of
`product:{id}`, on miss a store query cached for 600 seconds; 404 when no
active row exists. -/
def getProduct (getOk putOk : Bool) (now : Nat) (i : Nat) (s : Store) (c : Cache) :
    Except String (Src × CacheValue) × Cache :=
  if !getOk then (Except.error "Internal server error", c)
  else
    match cacheGet c now (CacheKey.product i) with
    | some v => (Except.ok (Src.cache, v), c)
    | none =>
      match productQuery s i with
      | none => (Except.error "Product not found", c)
      | some p =>
        if !putOk then (Except.error "Internal server error", c)
        else
          (Except.ok (Src.database, CacheValue.one p),
           cacheSet c (CacheKey.product i) (CacheValue.one p) (now + 600))

/-- A JSON request body for the product routes: every field optional. -/
structure ProductReq where
  name : Option String
  description : Option String
  price : Option Int
  category : Option String
  stock : Option Int
  image_url : Option String
deriving Repr, DecidableEq

/-- `POST /api/products` (`app.js` lines 137-164): JS-truthiness validation of
`name`, `price`, `category`; insert with `stock || 0`; `DEL products:all`. -/
def createProduct (delOk : Bool) (r : ProductReq) (s : Store) (c : Cache) :
    Except String ProductRow × Store × Cache :=
  if !(truthyS r.name && truthyI r.price && truthyS r.category) then
    (Except.error "Missing required fields", s, c)
  else
    let row : ProductRow :=
      { id := s.next_product_id, name := r.name.getD "",
        description := r.description, price := r.price.getD 0,
        category := r.category.getD "", stock := r.stock.getD 0,
        image_url := r.image_url, is_active := true }
    if !productOkRow row then (Except.error "Internal server error", s, c)
    else
      let s1 : Store :=
        { s with products := s.products ++ [row],
                 next_product_id := s.next_product_id + 1 }
      if !delOk then (Except.error "Internal server error", s1, c)
      else (Except.ok row, s1, cacheDel c CacheKey.productsAll)

/-- Row-wise effect on the products table of `UPDATE products SET is_active =
false WHERE id = $1`. -/
def deactivate (i : Nat) (ps : List ProductRow) : List ProductRow :=
  ps.map (fun q => if q.id == i then { q with is_active := false } else q)

/-- The `COALESCE` update of `PUT /api/products/:id` applied to one row. -/
def applyUpdate (r : ProductReq) (p : ProductRow) : ProductRow :=
  { p with name := r.name.getD p.name,
           description := (r.description).orElse (fun _ => p.description),
           price := r.price.getD p.price,
           category := r.category.getD p.category,
           stock := r.stock.getD p.stock,
           image_url := (r.image_url).orElse (fun _ => p.image_url) }

/-- Row-wise effect on the products table of the `UPDATE` of
`PUT /api/products/:id` (which matches on `id` and `is_active`). -/
def applyUpdateAll (r : ProductReq) (i : Nat) (ps : List ProductRow) : List ProductRow :=
  ps.map (fun q => if q.id == i && q.is_active then applyUpdate r q else q)

/-- `PUT /api/products/:id` (`app.js` lines 167-202): `UPDATE ... WHERE id =
$7 AND is_active = true`; 404 when no row matches; the statement fails (500)
when an updated row would violate a check constraint; then `DEL products:all`
and `DEL product:{id}`. -/
def updateProduct (delAllOk delIdOk : Bool) (i : Nat) (r : ProductReq)
    (s : Store) (c : Cache) : Except String ProductRow × Store × Cache :=
  let matched := s.products.filter (fun p => p.id == i && p.is_active)
  match matched.head? with
  | none => (Except.error "Product not found", s, c)
  | some p =>
    if !(matched.all (fun q => productOkRow (applyUpdate r q))) then
      (Except.error "Internal server error", s, c)
    else
      let s1 : Store := { s with products := applyUpdateAll r i s.products }
      if !delAllOk then (Except.error "Internal server error", s1, c)
      else if !delIdOk then
        (Except.error "Internal server error", s1, cacheDel c CacheKey.productsAll)
      else
        (Except.ok (applyUpdate r p), s1,
         cacheDel (cacheDel c CacheKey.productsAll) (CacheKey.product i))

/-- `DELETE /api/products/:id` (`app.js` lines 205-227): `UPDATE products SET
is_active = false WHERE id = $1` — note: no `is_active` filter, so an
already-inactive row still matches; then both cache keys are deleted. -/
def deleteProduct (delAllOk delIdOk : Bool) (i : Nat) (s : Store) (c : Cache) :
    Except String Unit × Store × Cache :=
  if (s.products.filter (fun p => p.id == i)).isEmpty then
    (Except.error "Product not found", s, c)
  else
    let s1 : Store := { s with products := deactivate i s.products }
    if !delAllOk then (Except.error "Internal server error", s1, c)
    else if !delIdOk then
      (Except.error "Internal server error", s1, cacheDel c CacheKey.productsAll)
    else
      (Except.ok (), s1,
       cacheDel (cacheDel c CacheKey.productsAll) (CacheKey.product i))

/-- Row-wise effect on the orders table of the status `UPDATE`. -/
def setStatusAll (st : String) (i : Nat) (os : List OrderRow) : List OrderRow :=
  os.map (fun q => if q.id == i then { q with status := st } else q)

/-- `PATCH /api/orders/:id/status` (`app.js` lines 339-367): status must be in
the whitelist; 404 when the order does not exist; no cache interaction. -/
def updateOrderStatus (i : Nat) (st : String) (s : Store) :
    Except String OrderRow × Store :=
  if !(validStatuses.contains st) then (Except.error "Invalid status", s)
  else
    match (s.orders.filter (fun o => o.id == i)).head? with
    | none => (Except.error "Order not found", s)
    | some o =>
      (Except.ok { o with status := st }, { s with orders := setStatusAll st i s.orders })

/-- Aggregate record returned by `GET /api/stats`. -/
structure Stats where
  total_orders : Nat
  total_products : Nat
  total_revenue : Int
  pending_orders : Nat
deriving Repr, DecidableEq

/-- `GET /api/stats` (`app.js` lines 370-388), translated literally: a `CROSS
JOIN` of `orders` with the active `products`, then `COUNT(DISTINCT ...)` and
`COALESCE(SUM(o.total_amount), 0)` over the joined rows. -/
def getStats (s : Store) : Stats :=
  let actives := s.products.filter (fun p => p.is_active)
  let rows := s.orders.flatMap (fun o => actives.map (fun p => (o, p)))
  { total_orders := ((rows.map (fun x => x.1.id)).dedup).length,
    total_products := ((rows.map (fun x => x.2.id)).dedup).length,
    total_revenue := (rows.map (fun x => x.1.total_amount)).sum,
    pending_orders :=
      (((rows.filter (fun x => x.1.status == "pending")).map (fun x => x.1.id)).dedup).length }

/-- One requested line item of `POST /api/orders`. -/
structure ItemReq where
  product_id : Nat
  quantity : Int
deriving Repr, DecidableEq

/-- A JSON request body for `POST /api/orders`. -/
structure OrderReq where
  customer_name : Option String
  customer_email : Option String
  items : Option (List ItemReq)
deriving Repr, DecidableEq

/-- First loop of `POST /api/orders` (`app.js` lines 272-289): per item, read
price and stock of the active product, fail on a missing product or on
insufficient stock, and accumulate `total_amount`. -/
def checkAndTotal (s : Store) : List ItemReq → Except String Int
  | [] => Except.ok 0
  | it :: rest =>
    match productQuery s it.product_id with
    | none => Except.error ("Product " ++ toString it.product_id ++ " not found")
    | some p =>
      if p.stock < it.quantity then
        Except.error ("Insufficient stock for product " ++ toString it.product_id)
      else
        match checkAndTotal s rest with
        | Except.error e => Except.error e
        | Except.ok t => Except.ok (p.price * it.quantity + t)

/-- The `order_items` row inserted for one requested item: the captured price
is re-read by `SELECT price FROM products WHERE id = $1` (no active filter). -/
def capturedItem (ps : List ProductRow) (oid : Nat) (it : ItemReq) : OrderItemRow :=
  { order_id := oid, product_id := it.product_id, quantity := it.quantity,
    price := priceAt ps it.product_id }

/-- Effect of `UPDATE products SET stock = stock - $1 WHERE id = $2` on the
product rows. -/
def decProduct (i : Nat) (q : Int) (ps : List ProductRow) : List ProductRow :=
  ps.map (fun p => if p.id == i then { p with stock := p.stock - q } else p)

/-- Second loop of `POST /api/orders` (`app.js` lines 302-318): per item,
re-read the price, insert the `order_items` row (check: `quantity > 0`,
`price >= 0`), and decrement the stock (check on every updated row:
`stock >= 0`, `price >= 0`). A violated check aborts the transaction. -/
def insertItems (oid : Nat) : List ItemReq → Store → Except String Store
  | [], s => Except.ok s
  | it :: rest, s =>
    match (s.products.filter (fun p => p.id == it.product_id)).head? with
    | none => Except.error "Internal server error"
    | some p =>
      if !(decide (0 < it.quantity) && decide (0 ≤ p.price)) then
        Except.error "order item check constraint violated"
      else if !((s.products.filter (fun q => q.id == it.product_id)).all
                 (fun q => decide (0 ≤ q.stock - it.quantity) && decide (0 ≤ q.price))) then
        Except.error "stock check constraint violated"
      else
        insertItems oid rest
          { s with order_items := s.order_items ++ [capturedItem s.products oid it],
                   products := decProduct it.product_id it.quantity s.products }

/-- `POST /api/orders` (`app.js` lines 258-336): validation, then a store
transaction (first loop, order insert, second loop) that commits entirely or
rolls back entirely; on commit, `DEL products:all`. A failing `DEL` (flag
`false`) lands in the catch branch after the commit: the response is a 500
even though the transaction committed. -/
def createOrder (delOk : Bool) (r : OrderReq) (s : Store) (c : Cache) :
    Except String OrderRow × Store × Cache :=
  if !(truthyS r.customer_name && truthyS r.customer_email) then
    (Except.error "Missing required fields", s, c)
  else
    match r.items with
    | none => (Except.error "Missing required fields", s, c)
    | some items =>
      if items.isEmpty then (Except.error "Missing required fields", s, c)
      else
        match checkAndTotal s items with
        | Except.error e => (Except.error e, s, c)
        | Except.ok total =>
          let o : OrderRow :=
            { id := s.next_order_id,
              customer_name := r.customer_name.getD "",
              customer_email := r.customer_email.getD "",
              total_amount := total, status := "pending" }
          if !orderOkRow o then (Except.error "orders check constraint violated", s, c)
          else
            let s1 : Store :=
              { s with orders := s.orders ++ [o], next_order_id := s.next_order_id + 1 }
            match insertItems o.id items s1 with
            | Except.error e => (Except.error e, s, c)
            | Except.ok s2 =>
              if !delOk then (Except.error "Internal server error", s2, c)
              else (Except.ok o, s2, cacheDel c CacheKey.productsAll)

/-- Total quantity requested for product `i` across the items of one order. -/
def itemsTotal : List ItemReq → Nat → Int
  | [], _ => 0
  | it :: rest, i =>
    (if it.product_id == i then it.quantity else 0) + itemsTotal rest i

/-- Whether a product row's id is unique in the table (`SERIAL PRIMARY KEY`
invariant of `init.sql`). -/
def uniqueIds (s : Store) : Prop :=
  s.products.Pairwise (fun a b => a.id ≠ b.id)

/-!
Two-transaction interleaving model for the concurrency claim.

Two concurrent `POST /api/orders` requests, each with a single line item of
quantity `q1` resp. `q2` for the same product, run against Postgres at the
default READ COMMITTED isolation (the code takes no row locks: the first
loop's `SELECT price, stock ...` has no `FOR UPDATE`).

Events: `read i` is transaction i's stock read (each statement sees the
latest committed state; the other transaction's uncommitted work is
invisible). `upd i` is transaction i's `UPDATE products SET stock = stock -
q` merged with its `COMMIT`: the row lock taken by the `UPDATE` serializes
the two updates, a blocked `UPDATE` re-evaluates `stock - q` against the
newly committed row version after the blocker commits, and the
`CHECK (stock >= 0)` constraint (plus the `order_items` checks: the
`quantity > 0` check makes any `q ≤ 0` transaction abort) is applied to that
re-evaluated row; a violated check aborts and fully rolls back the
transaction. Merging `UPDATE` with `COMMIT` is sound here because the stock
update is the transaction's last store effect and uncommitted changes are
invisible to the other transaction's reads.

`seen1`/`seen2` are ghost fields recording the committed stock against which
each update was (re-)evaluated.
-/

/-- Events of the two-transaction interleaving. -/
inductive TxnEv where
  | read1 : TxnEv
  | upd1 : TxnEv
  | read2 : TxnEv
  | upd2 : TxnEv
deriving Repr, DecidableEq

/-- State of the two concurrent single-item order transactions. -/
structure TwoTxn where
  stock : Int
  r1 : Option Int
  r2 : Option Int
  seen1 : Option Int
  seen2 : Option Int
  done1 : Option Bool
  done2 : Option Bool
deriving Repr, DecidableEq

/-- Initial state: committed stock `s`, both transactions before their read. -/
def initTwo (s : Int) : TwoTxn :=
  { stock := s, r1 := none, r2 := none, seen1 := none, seen2 := none,
    done1 := none, done2 := none }

/-- One event of the interleaved execution. An update event fires only while
its transaction is still running (a transaction commits or aborts once) and
only after its read. -/
def stepTwo (q1 q2 : Int) (st : TwoTxn) : TxnEv → TwoTxn
  | TxnEv.read1 => { st with r1 := some st.stock }
  | TxnEv.read2 => { st with r2 := some st.stock }
  | TxnEv.upd1 =>
    if st.done1.isSome then st
    else
      match st.r1 with
      | none => st
      | some r =>
        if r < q1 then { st with done1 := some false, seen1 := some st.stock }
        else if q1 ≤ 0 then { st with done1 := some false, seen1 := some st.stock }
        else if 0 ≤ st.stock - q1 then
          { st with stock := st.stock - q1, done1 := some true, seen1 := some st.stock }
        else { st with done1 := some false, seen1 := some st.stock }
  | TxnEv.upd2 =>
    if st.done2.isSome then st
    else
      match st.r2 with
      | none => st
      | some r =>
        if r < q2 then { st with done2 := some false, seen2 := some st.stock }
        else if q2 ≤ 0 then { st with done2 := some false, seen2 := some st.stock }
        else if 0 ≤ st.stock - q2 then
          { st with stock := st.stock - q2, done2 := some true, seen2 := some st.stock }
        else { st with done2 := some false, seen2 := some st.stock }

/-- Invariant of the two-transaction execution: the committed stock equals
the initial stock minus the quantities of the transactions that have
committed, and whenever both have committed the committed stock is still
non-negative (each successful decrement was guarded by the `stock >= 0`
check). -/
def twoInv (s q1 q2 : Int) (st : TwoTxn) : Prop :=
  st.stock = s - (if st.done1 = some true then q1 else 0)
               - (if st.done2 = some true then q2 else 0) ∧
  ((st.done1 = some true ∧ st.done2 = some true) → 0 ≤ st.stock)

/-- Run a schedule of events. -/
def execTwo (s q1 q2 : Int) (evs : List TxnEv) : TwoTxn :=
  evs.foldl (stepTwo q1 q2) (initTwo s)

/-- All interleavings of the two transactions (each read precedes its own
update). -/
def twoSchedules : List (List TxnEv) :=
  [[TxnEv.read1, TxnEv.upd1, TxnEv.read2, TxnEv.upd2],
   [TxnEv.read1, TxnEv.read2, TxnEv.upd1, TxnEv.upd2],
   [TxnEv.read1, TxnEv.read2, TxnEv.upd2, TxnEv.upd1],
   [TxnEv.read2, TxnEv.read1, TxnEv.upd1, TxnEv.upd2],
   [TxnEv.read2, TxnEv.read1, TxnEv.upd2, TxnEv.upd1],
   [TxnEv.read2, TxnEv.upd2, TxnEv.read1, TxnEv.upd1]]

/-!
Sequential operation traces over the whole API, for the temporal claims.
-/

/-- One API request, with the success flags of its cache calls and, for the
cached reads, the wall-clock time of the request. -/
inductive Op where
  | listP (getOk putOk : Bool) (now : Nat) : Op
  | getP (getOk putOk : Bool) (now : Nat) (i : Nat) : Op
  | createP (delOk : Bool) (r : ProductReq) : Op
  | updateP (delAllOk delIdOk : Bool) (i : Nat) (r : ProductReq) : Op
  | deleteP (delAllOk delIdOk : Bool) (i : Nat) : Op
  | orderC (delOk : Bool) (r : OrderReq) : Op
  | statusU (i : Nat) (st : String) : Op
  | listO : Op
  | statsQ : Op
deriving Repr, DecidableEq

/-- State effect of one API request (the response is discarded). -/
def stepOp (op : Op) (sc : Store × Cache) : Store × Cache :=
  match op with
  | Op.listP g p n => (sc.1, (listProducts g p n sc.1 sc.2).2)
  | Op.getP g p n i => (sc.1, (getProduct g p n i sc.1 sc.2).2)
  | Op.createP d r => (createProduct d r sc.1 sc.2).2
  | Op.updateP da di i r => (updateProduct da di i r sc.1 sc.2).2
  | Op.deleteP da di i => (deleteProduct da di i sc.1 sc.2).2
  | Op.orderC d r => (createOrder d r sc.1 sc.2).2
  | Op.statusU i st => ((updateOrderStatus i st sc.1).2, sc.2)
  | Op.listO => sc
  | Op.statsQ => sc

/-- Run a sequence of API requests. -/
def run (ops : List Op) (sc : Store × Cache) : Store × Cache :=
  ops.foldl (fun x op => stepOp op x) sc

/-- The store states reached after each request of a trace. -/
def tailStores : List Op → Store × Cache → List Store
  | [], _ => []
  | op :: rest, sc => (stepOp op sc).1 :: tailStores rest (stepOp op sc)

/-- Coherence of one cache entry with respect to product `x` and a set of
historical store states: an entry for `product:x` holds the active row of
some historical state, an entry for `products:all` holds the active list of
some historical state. -/
def entryCoh (x : Nat) (hist : List Store) (e : CEntry) : Prop :=
  (e.key = CacheKey.product x →
    ∃ s ∈ hist, ∃ p, productQuery s x = some p ∧ e.val = CacheValue.one p) ∧
  (e.key = CacheKey.productsAll →
    ∃ s ∈ hist, e.val = CacheValue.many (activeProducts s))

/-- Coherence of a whole cache with respect to product `x` and a history. -/
def cacheCoh (x : Nat) (hist : List Store) (c : Cache) : Prop :=
  ∀ e ∈ c, entryCoh x hist e

/-- After a successful mutation of product `x` that left store `s1` and cache
`c1`: every later `get_product(x)` or `list_products` response, after any
further trace of requests, carries data derived from a store state reached at
or after the mutation — never the pre-mutation value. -/
def freshViews (x : Nat) (s1 : Store) (c1 : Cache) : Prop :=
  ∀ ops : List Op,
    (∀ gOk pOk now res c2,
      getProduct gOk pOk now x (run ops (s1, c1)).1 (run ops (s1, c1)).2 = (res, c2) →
      res = Except.error "Internal server error" ∨
      (res = Except.error "Product not found" ∧
        productQuery (run ops (s1, c1)).1 x = none) ∨
      (∃ src p, res = Except.ok (src, CacheValue.one p) ∧
        ∃ s ∈ s1 :: tailStores ops (s1, c1), productQuery s x = some p)) ∧
    (∀ gOk pOk now res c2,
      listProducts gOk pOk now (run ops (s1, c1)).1 (run ops (s1, c1)).2 = (res, c2) →
      res = Except.error "Internal server error" ∨
      (∃ src, ∃ s ∈ s1 :: tailStores ops (s1, c1),
        res = Except.ok (src, CacheValue.many (activeProducts s))))

/-!
Concrete data used by counterexamples and witnesses.
-/

/-- A concrete active product: id 1, price 10.00, stock 5. -/
def pA : ProductRow :=
  { id := 1, name := "Laptop", description := none, price := 1000,
    category := "Electronics", stock := 5, image_url := none, is_active := true }

/-- A second concrete active product: id 2, price 5.00, stock 3. -/
def pB : ProductRow :=
  { id := 2, name := "Mouse", description := none, price := 500,
    category := "Electronics", stock := 3, image_url := none, is_active := true }

/-- A concrete pending order with total 10.00. -/
def oA : OrderRow :=
  { id := 1, customer_name := "Jo", customer_email := "jo@example.com",
    total_amount := 1000, status := "pending" }

/-- A concrete store with two active products and one pending order. -/
def stA : Store :=
  { products := [pA, pB], orders := [oA], order_items := [],
    next_product_id := 3, next_order_id := 2 }

/-- A concrete valid order request: 2 units of product 1. -/
def rqA : OrderReq :=
  { customer_name := some "Jo", customer_email := some "jo@example.com",
    items := some [{ product_id := 1, quantity := 2 }] }

/-- An order request with a zero-quantity item on an in-stock active product. -/
def rqZero : OrderReq :=
  { customer_name := some "Jo", customer_email := some "jo@example.com",
    items := some [{ product_id := 1, quantity := 0 }] }

/-- A product-creation request with price exactly 0 and all required fields
present. -/
def prqZero : ProductReq :=
  { name := some "Freebie", description := none, price := some 0,
    category := some "Electronics", stock := none, image_url := none }

/-!
Helper lemmas.
-/

theorem cacheDel_idem (c : Cache) (k : CacheKey) :
    cacheDel (cacheDel c k) k = cacheDel c k := by
  simp only [cacheDel, List.filter_filter, Bool.and_self]

theorem cacheDel_comm (c : Cache) (k k' : CacheKey) :
    cacheDel (cacheDel c k) k' = cacheDel (cacheDel c k') k := by
  simp only [cacheDel, List.filter_filter]
  apply List.filter_congr
  intro e _
  exact Bool.and_comm _ _

theorem find?_cacheDel (c : Cache) (k : CacheKey) (p : CEntry → Bool)
    (hp : ∀ e, p e = true → (e.key != k) = true) :
    (cacheDel c k).find? p = c.find? p := by
  induction c with
  | nil => rfl
  | cons e rest ih =>
    by_cases he : p e = true
    · have hk := hp e he
      simp only [cacheDel, List.filter_cons, hk, if_pos]
      simp [List.find?, he]
    · have he' : p e = false := by simpa using he
      by_cases hk : (e.key != k) = true
      · simp only [cacheDel, List.filter_cons, hk, if_pos]
        simp only [List.find?, he']
        exact ih
      · have hk' : (e.key != k) = false := by simpa using hk
        simp only [cacheDel, List.filter_cons, hk']
        simp only [List.find?, he', cond_false]
        simpa [cacheDel] using ih

theorem key_product_ne_all (i : Nat) :
    ((CacheKey.product i) != CacheKey.productsAll) = true := by
  simp [bne]

theorem cacheLookup_del_all (c : Cache) (i : Nat) :
    cacheLookup (cacheDel c CacheKey.productsAll) (CacheKey.product i) =
      cacheLookup c (CacheKey.product i) := by
  unfold cacheLookup
  rw [find?_cacheDel]
  intro e he
  have : e.key = CacheKey.product i := by simpa using he
  rw [this]
  exact key_product_ne_all i

theorem cacheGet_del_all (c : Cache) (now : Nat) (i : Nat) :
    cacheGet (cacheDel c CacheKey.productsAll) now (CacheKey.product i) =
      cacheGet c now (CacheKey.product i) := by
  unfold cacheGet
  rw [find?_cacheDel]
  intro e he
  have : e.key = CacheKey.product i := by
    have := (Bool.and_eq_true _ _).mp he
    simpa using this.1
  rw [this]
  exact key_product_ne_all i

theorem cacheLookup_del_self (c : Cache) (k : CacheKey) :
    cacheLookup (cacheDel c k) k = none := by
  unfold cacheLookup cacheDel
  have h : (c.filter (fun e => e.key != k)).find? (fun e => e.key == k) = none := by
    apply List.find?_eq_none.mpr
    intro e he
    have hm := List.of_mem_filter he
    simp_all [bne]
  rw [h]
  rfl

theorem truthyI_eq_false (o : Option Int) :
    truthyI o = false ↔ o = none ∨ o = some 0 := by
  cases o with
  | none => simp [truthyI]
  | some n => simp [truthyI]

theorem inactiveSet_self (p : ProductRow) (h : p.is_active = false) :
    { p with is_active := false } = p := by
  cases p
  simp_all

theorem map_id_of_fix (f : ProductRow → ProductRow) (l : List ProductRow)
    (h : ∀ p ∈ l, f p = p) : l.map f = l := by
  induction l with
  | nil => rfl
  | cons p t ih =>
    rw [List.map_cons, h p (List.mem_cons_self p t),
      ih (fun q hq => h q (List.mem_cons_of_mem p hq))]

theorem filter_id_map (f : ProductRow → ProductRow) (hf : ∀ p, (f p).id = p.id)
    (i : Nat) (ps : List ProductRow) :
    (ps.map f).filter (fun p => p.id == i) =
      (ps.filter (fun p => p.id == i)).map f := by
  induction ps with
  | nil => rfl
  | cons p t ih =>
    simp only [List.map_cons, List.filter_cons, hf p]
    by_cases h : (p.id == i) = true
    · simp [h, ih]
    · simp only [h]
      simpa using ih

theorem deactivate_of_inactive (i : Nat) (ps : List ProductRow)
    (hin : ∀ p ∈ ps, p.id = i → p.is_active = false) :
    deactivate i ps = ps := by
  apply map_id_of_fix
  intro p hp
  by_cases hid : (p.id == i) = true
  · have := hin p hp (by simpa using hid)
    simp [hid, inactiveSet_self p this]
  · simp [hid]

theorem deleteProduct_inactive (i : Nat) (s : Store) (c : Cache)
    (hex : (s.products.filter (fun p => p.id == i)).isEmpty = false)
    (hin : ∀ p ∈ s.products, p.id = i → p.is_active = false) :
    deleteProduct true true i s c =
      (Except.ok (), s, cacheDel (cacheDel c CacheKey.productsAll) (CacheKey.product i)) := by
  have hmap := deactivate_of_inactive i s.products hin
  simp [deleteProduct, hex, hmap]

/-!
Claim theorems, C4, C5, C8, C9 and the counterexamples for C1, C2, C3.
-/

/-- C4 (code bug): on a store with two active products and a single pending
order of total 10.00, `get_stats` reports `total_revenue = 20.00` — the
`CROSS JOIN` in the stats query counts each order's total once per active
product — while the sum of `total_amount` over the `orders` table is 10.00.
The counts happen to agree on this input, the revenue does not. -/
theorem c4_stats_divergence :
    getStats stA =
      { total_orders := 1, total_products := 2,
        total_revenue := 2000, pending_orders := 1 } ∧
    (stA.orders.map (fun o => o.total_amount)).sum = 1000 ∧
    (getStats stA).total_revenue ≠ (stA.orders.map (fun o => o.total_amount)).sum := by
  refine ⟨by decide, by decide, by decide⟩

/-- C5 counterexample: a failing cache `get` during `list_products` is not
treated as a miss. With the cache call failing, the route answers with the
500 error and never consults the store; with the identical store and a cache
miss, it answers with the store rows. The two results differ. -/
theorem c5_counterexample :
    listProducts false true 0 stA [] = (Except.error "Internal server error", []) ∧
    listProducts true true 0 stA [] =
      (Except.ok (Src.database, CacheValue.many (activeProducts stA)),
       cacheSet [] CacheKey.productsAll (CacheValue.many (activeProducts stA)) 300) ∧
    (Except.error "Internal server error" : Except String (Src × CacheValue)) ≠
      Except.ok (Src.database, CacheValue.many (activeProducts stA)) := by
  refine ⟨rfl, rfl, fun h => Except.noConfusion h⟩

/-- C5 amended: a failing cache operation does not degrade to a miss — it
fails the whole read. If the cache `get` of `list_products` or `get_product`
fails, the route returns the internal error and the store is never consulted;
if the `get` misses and the subsequent cache `put` fails, the route likewise
returns the internal error even though the store row was fetched. -/
theorem c5_cache_failure (pOk : Bool) (now : Nat) (i : Nat) (s : Store) (c : Cache) :
    listProducts false pOk now s c = (Except.error "Internal server error", c) ∧
    getProduct false pOk now i s c = (Except.error "Internal server error", c) ∧
    (cacheGet c now CacheKey.productsAll = none →
      listProducts true false now s c = (Except.error "Internal server error", c)) ∧
    (∀ p, cacheGet c now (CacheKey.product i) = none → productQuery s i = some p →
      getProduct true false now i s c = (Except.error "Internal server error", c)) := by
  refine ⟨rfl, rfl, ?_, ?_⟩
  · intro hmiss
    simp [listProducts, hmiss]
  · intro p hmiss hq
    simp [getProduct, hmiss, hq]

/-- Witness for the amended C5 theorem at a concrete input. -/
theorem c5_cache_failure_witness :
    cacheGet [] 0 CacheKey.productsAll = none ∧
    listProducts true false 0 stA [] = (Except.error "Internal server error", []) := by
  exact ⟨rfl, (c5_cache_failure true 0 1 stA []).2.2.1 rfl⟩

/-- C8 counterexample: a creation request carrying a non-empty name, a
non-empty category and price exactly 0 is rejected with the Validation error
(`!price` treats the number 0 as a missing field), while the claim says it
must succeed. -/
theorem c8_counterexample :
    createProduct true prqZero stA [] =
      (Except.error "Missing required fields", stA, []) := by
  rfl

/-- C8 amended: `create_product` answers the Validation error exactly when
the name or the category is missing or empty, or the price is missing or
zero; a request with non-empty name and category, price strictly positive
and a non-negative (or absent, defaulting to 0) stock succeeds and inserts
the row. (A negative price or stock passes validation and then fails the
store's check constraint with the internal error instead.) -/
theorem c8_create_product (delOk : Bool) (r : ProductReq) (s : Store) (c : Cache) :
    ((createProduct delOk r s c).1 = Except.error "Missing required fields" ↔
      (truthyS r.name = false ∨ r.price = none ∨ r.price = some 0 ∨
        truthyS r.category = false)) ∧
    (∀ pv, truthyS r.name = true → truthyS r.category = true →
      r.price = some pv → 0 < pv → 0 ≤ (r.stock).getD 0 → delOk = true →
      createProduct delOk r s c =
        (Except.ok
          { id := s.next_product_id, name := r.name.getD "",
            description := r.description, price := pv,
            category := r.category.getD "", stock := r.stock.getD 0,
            image_url := r.image_url, is_active := true },
         { s with
            products := s.products ++
              [{ id := s.next_product_id, name := r.name.getD "",
                 description := r.description, price := pv,
                 category := r.category.getD "", stock := r.stock.getD 0,
                 image_url := r.image_url, is_active := true }],
            next_product_id := s.next_product_id + 1 },
         cacheDel c CacheKey.productsAll)) := by
  constructor
  · constructor
    · intro h
      by_cases hv : (truthyS r.name && truthyI r.price && truthyS r.category) = true
      · exfalso
        simp only [createProduct, hv, Bool.not_true, Bool.false_eq_true, if_false] at h
        split at h
        · simp_all
        · split at h <;> simp_all
      · have hv' := hv
        simp only [Bool.and_eq_true, not_and_or, Bool.not_eq_true] at hv'
        rcases hv' with (h1 | h2) | h3
        · exact Or.inl h1
        · rcases (truthyI_eq_false r.price).mp h2 with h | h
          · exact Or.inr (Or.inl h)
          · exact Or.inr (Or.inr (Or.inl h))
        · exact Or.inr (Or.inr (Or.inr h3))
    · intro h
      have hv : (truthyS r.name && truthyI r.price && truthyS r.category) = false := by
        rcases h with h | h | h | h
        · simp [h]
        · simp [truthyI, h]
        · simp [truthyI, h]
        · simp [h]
      simp [createProduct, hv]
  · intro pv hn hc hp hpos hst hd
    subst hd
    have hnz : pv ≠ 0 := by omega
    have htr : truthyI r.price = true := by simp [hp, truthyI, hnz]
    have hok : productOkRow
        { id := s.next_product_id, name := r.name.getD "",
          description := r.description, price := pv,
          category := r.category.getD "", stock := r.stock.getD 0,
          image_url := r.image_url, is_active := true } = true := by
      simp only [productOkRow, Bool.and_eq_true, decide_eq_true_eq]
      exact ⟨by omega, hst⟩
    simp [createProduct, hn, hc, htr, hp, hok, truthyI, hnz]

/-- Witness for the amended C8 theorem: the success branch at a concrete
request with price 2.50 and the Validation branch at a price-0 request. -/
theorem c8_create_product_witness :
    ((createProduct true prqZero stA []).1 = Except.error "Missing required fields" ↔
      (truthyS prqZero.name = false ∨ prqZero.price = none ∨ prqZero.price = some 0 ∨
        truthyS prqZero.category = false)) ∧
    (createProduct true
        { name := some "Pen", description := none, price := some 250,
          category := some "Office", stock := some 4, image_url := none }
        stA []).1 =
      Except.ok
        { id := 3, name := "Pen", description := none, price := 250,
          category := "Office", stock := 4, image_url := none, is_active := true } := by
  constructor
  · exact (c8_create_product true prqZero stA []).1
  · have := (c8_create_product true
      { name := some "Pen", description := none, price := some 250,
        category := some "Office", stock := some 4, image_url := none }
      stA []).2 250 (by decide) (by decide) rfl (by decide) (by decide) rfl
    rw [this]
    rfl

/-- C9: `delete_product` on an existing but already-inactive product reports
success and leaves the product rows unchanged (the `UPDATE` has no
`is_active` filter, so the row still matches and is set inactive again), and
two consecutive deletes of the same existing product end in exactly the
state a single delete produces. -/
theorem c9_delete_idempotent (i : Nat) (s : Store) (c : Cache)
    (hex : (s.products.filter (fun p => p.id == i)).isEmpty = false) :
    ((∀ p ∈ s.products, p.id = i → p.is_active = false) →
      deleteProduct true true i s c =
        (Except.ok (), s, cacheDel (cacheDel c CacheKey.productsAll) (CacheKey.product i))) ∧
    deleteProduct true true i
        (deleteProduct true true i s c).2.1 (deleteProduct true true i s c).2.2 =
      (Except.ok (),
       (deleteProduct true true i s c).2.1, (deleteProduct true true i s c).2.2) := by
  constructor
  · intro hin
    exact deleteProduct_inactive i s c hex hin
  · have hD : deleteProduct true true i s c =
        (Except.ok (), { s with products := deactivate i s.products },
         cacheDel (cacheDel c CacheKey.productsAll) (CacheKey.product i)) := by
      simp [deleteProduct, hex]
    rw [hD]
    have hex1 : (((deactivate i s.products).filter
        (fun p => p.id == i)).isEmpty) = false := by
      unfold deactivate
      rw [filter_id_map _ (fun p => by by_cases h : (p.id == i) = true <;> simp [h])]
      simpa using hex
    have hin1 : ∀ p ∈ deactivate i s.products, p.id = i → p.is_active = false := by
      intro p hp hpi
      rcases List.mem_map.mp hp with ⟨q, _, rfl⟩
      by_cases h : (q.id == i) = true
      · simp [h]
      · simp only [h, if_false] at hpi ⊢
        exact absurd (by simpa using hpi) (by simpa using h)
    have := deleteProduct_inactive i
      { s with products := deactivate i s.products }
      (cacheDel (cacheDel c CacheKey.productsAll) (CacheKey.product i)) hex1 hin1
    rw [this]
    have hcache :
        cacheDel (cacheDel (cacheDel (cacheDel c CacheKey.productsAll)
            (CacheKey.product i)) CacheKey.productsAll) (CacheKey.product i) =
          cacheDel (cacheDel c CacheKey.productsAll) (CacheKey.product i) := by
      rw [cacheDel_comm (cacheDel c CacheKey.productsAll) (CacheKey.product i)
        CacheKey.productsAll]
      rw [cacheDel_idem c CacheKey.productsAll]
      rw [cacheDel_idem (cacheDel c CacheKey.productsAll) (CacheKey.product i)]
    rw [hcache]

/-- Witness for C9 at a concrete input: product 1 exists in the concrete
store. -/
theorem c9_delete_idempotent_witness :
    ((stA.products.filter (fun p => p.id == 1)).isEmpty = false) ∧
    deleteProduct true true 1
        (deleteProduct true true 1 stA []).2.1 (deleteProduct true true 1 stA []).2.2 =
      (Except.ok (),
       (deleteProduct true true 1 stA []).2.1, (deleteProduct true true 1 stA []).2.2) :=
  ⟨by decide, (c9_delete_idempotent 1 stA [] (by decide)).2⟩

/-- C1 counterexample: for the concrete valid order request on the concrete
store, with the post-commit cache invalidation failing, `create_order`
reports the 500 error — yet the order row is visible in the store. The
operation neither fully succeeded (it returned an error) nor failed without
observable side effect. -/
theorem c1_counterexample :
    (createOrder false rqA stA []).1 = Except.error "Internal server error" ∧
    (createOrder false rqA stA []).2.1.orders =
      stA.orders ++
        [{ id := 2, customer_name := "Jo", customer_email := "jo@example.com",
           total_amount := 2000, status := "pending" }] ∧
    (createOrder false rqA stA []).2.1 ≠ stA := by
  refine ⟨rfl, rfl, by decide⟩

/-- C3 counterexample: the request `rqZero` is valid in the claim's sense —
non-empty customer fields, a non-empty item list, and its single item
references the active product 1 whose stock (5) is at least the requested
quantity (0) — yet `create_order` fails (the `order_items` check constraint
`quantity > 0` aborts the transaction) and rolls back. -/
theorem c3_counterexample :
    productQuery stA 1 = some pA ∧ pA.is_active = true ∧ pA.stock = 5 ∧
    (createOrder true rqZero stA []).1 =
      Except.error "order item check constraint violated" ∧
    (createOrder true rqZero stA []).2.1 = stA := by
  refine ⟨by decide, rfl, rfl, rfl, rfl⟩

/-- C2 counterexample: in the interleaving where both transactions read
before either updates (stock 5, quantities 3 and 3), transaction 2's read
observes stock 5 while its decrement is evaluated against committed stock 2 —
the read-then-decrement is not serialized against the other transaction.
(The oversell is still prevented: transaction 2 aborts on the check
constraint.) -/
theorem c2_counterexample :
    execTwo 5 3 3 [TxnEv.read1, TxnEv.read2, TxnEv.upd1, TxnEv.upd2] =
      { stock := 2, r1 := some 5, r2 := some 5, seen1 := some 5, seen2 := some 2,
        done1 := some true, done2 := some false } ∧
    (execTwo 5 3 3 [TxnEv.read1, TxnEv.read2, TxnEv.upd1, TxnEv.upd2]).r2 ≠
      (execTwo 5 3 3 [TxnEv.read1, TxnEv.read2, TxnEv.upd1, TxnEv.upd2]).seen2 := by
  refine ⟨by decide, by decide⟩

theorem stepTwo_inv (s q1 q2 : Int) (st : TwoTxn) (ev : TxnEv)
    (h : twoInv s q1 q2 st) : twoInv s q1 q2 (stepTwo q1 q2 st ev) := by
  obtain ⟨h1, h2⟩ := h
  cases ev with
  | read1 => exact ⟨h1, h2⟩
  | read2 => exact ⟨h1, h2⟩
  | upd1 =>
    simp only [stepTwo]
    by_cases hds : st.done1.isSome
    · simp only [hds, if_true]
      exact ⟨h1, h2⟩
    · have hnone : st.done1 = none := Option.not_isSome_iff_eq_none.mp hds
      simp only [hds, Bool.false_eq_true, if_false]
      cases hr : st.r1 with
      | none => exact ⟨h1, h2⟩
      | some r =>
        rw [hnone] at h1
        simp at h1
        dsimp only
        split_ifs with ha hb hc
        · simp only [twoInv]
          refine ⟨by simpa using h1, by simp⟩
        · simp only [twoInv]
          refine ⟨by simpa using h1, by simp⟩
        · simp only [twoInv]
          refine ⟨?_, ?_⟩
          · simp
            omega
          · intro _
            simpa using hc
        · simp only [twoInv]
          refine ⟨by simpa using h1, by simp⟩
  | upd2 =>
    simp only [stepTwo]
    by_cases hds : st.done2.isSome
    · simp only [hds, if_true]
      exact ⟨h1, h2⟩
    · have hnone : st.done2 = none := Option.not_isSome_iff_eq_none.mp hds
      simp only [hds, Bool.false_eq_true, if_false]
      cases hr : st.r2 with
      | none => exact ⟨h1, h2⟩
      | some r =>
        rw [hnone] at h1
        simp at h1
        dsimp only
        split_ifs with ha hb hc
        · simp only [twoInv]
          refine ⟨by simpa using h1, by simp⟩
        · simp only [twoInv]
          refine ⟨by simpa using h1, by simp⟩
        · simp only [twoInv]
          refine ⟨?_, ?_⟩
          · simp
            omega
          · intro _
            simpa using hc
        · simp only [twoInv]
          refine ⟨by simpa using h1, by simp⟩

theorem foldl_stepTwo_inv (s q1 q2 : Int) (l : List TxnEv) (st : TwoTxn)
    (h : twoInv s q1 q2 st) : twoInv s q1 q2 (l.foldl (stepTwo q1 q2) st) := by
  induction l generalizing st with
  | nil => exact h
  | cons e t ih => exact ih _ (stepTwo_inv s q1 q2 st e h)

/-- C2 amended: in every interleaving of two concurrent single-item orders
for the same product, if the combined quantity exceeds the committed stock
then the two transactions do not both succeed — not because the
read-then-decrement is serialized (it is not: both reads may observe the
pre-decrement stock), but because the store's `stock >= 0` check constraint,
re-evaluated when the later decrement applies, aborts the overselling
transaction. -/
theorem c2_no_oversell (s q1 q2 : Int) (evs : List TxnEv)
    (hevs : evs ∈ twoSchedules) (h : s < q1 + q2) :
    ¬((execTwo s q1 q2 evs).done1 = some true ∧
      (execTwo s q1 q2 evs).done2 = some true) := by
  intro hboth
  have hinit : twoInv s q1 q2 (initTwo s) := by
    constructor <;> simp [initTwo]
  have hfin := foldl_stepTwo_inv s q1 q2 evs (initTwo s) hinit
  rw [show evs.foldl (stepTwo q1 q2) (initTwo s) = execTwo s q1 q2 evs from rfl] at hfin
  obtain ⟨hs, hk⟩ := hfin
  have h0 := hk hboth
  rw [hboth.1, hboth.2] at hs
  simp at hs
  omega

theorem bool_of_not_not (b : Bool) (h : ¬((!b) = true)) : b = true := by
  cases b <;> simp_all

theorem map_congr_on (f g : ProductRow → ProductRow) (l : List ProductRow)
    (h : ∀ p ∈ l, f p = g p) : l.map f = l.map g := by
  induction l with
  | nil => rfl
  | cons p t ih =>
    rw [List.map_cons, List.map_cons, h p (List.mem_cons_self p t),
      ih (fun q hq => h q (List.mem_cons_of_mem p hq))]

theorem itemsTotal_nonneg (items : List ItemReq) (i : Nat)
    (h : ∀ it ∈ items, 0 < it.quantity) : 0 ≤ itemsTotal items i := by
  induction items with
  | nil => simp [itemsTotal]
  | cons it rest ih =>
    have h1 := h it (List.mem_cons_self it rest)
    have h2 := ih (fun x hx => h x (List.mem_cons_of_mem it hx))
    simp only [itemsTotal]
    by_cases hid : (it.product_id == i) = true <;> simp [hid] <;> omega

theorem itemsTotal_zero (items : List ItemReq) (i : Nat)
    (h : ∀ it ∈ items, it.product_id ≠ i) : itemsTotal items i = 0 := by
  induction items with
  | nil => rfl
  | cons it rest ih =>
    have h1 := h it (List.mem_cons_self it rest)
    have h2 := ih (fun x hx => h x (List.mem_cons_of_mem it hx))
    simp only [itemsTotal, show (it.product_id == i) = false by simpa using h1,
      Bool.false_eq_true, if_false, h2]
    omega

theorem le_itemsTotal_of_mem (items : List ItemReq) (it : ItemReq)
    (hit : it ∈ items) (hq : ∀ x ∈ items, 0 < x.quantity) :
    it.quantity ≤ itemsTotal items it.product_id := by
  induction items with
  | nil => cases hit
  | cons x rest ih =>
    have hrest : 0 ≤ itemsTotal rest it.product_id :=
      itemsTotal_nonneg rest it.product_id
        (fun y hy => hq y (List.mem_cons_of_mem x hy))
    rcases List.mem_cons.mp hit with rfl | hmem
    · simp only [itemsTotal, beq_self_eq_true, if_pos]
      omega
    · have := ih hmem (fun y hy => hq y (List.mem_cons_of_mem x hy))
      have hx0 : 0 ≤ (if x.product_id == it.product_id then x.quantity else 0) := by
        by_cases hb : (x.product_id == it.product_id) = true
        · have := hq x (List.mem_cons_self x rest)
          simp [hb]
          omega
        · simp [hb]
      simp only [itemsTotal]
      omega

theorem priceAt_decProduct (i : Nat) (q : Int) (j : Nat) (ps : List ProductRow) :
    priceAt (decProduct i q ps) j = priceAt ps j := by
  unfold priceAt decProduct
  rw [filter_id_map _ (fun p => by by_cases h : (p.id == i) = true <;> simp [h]) j ps]
  rw [List.head?_map]
  cases hh : (ps.filter (fun p => p.id == j)).head? with
  | none => rfl
  | some p =>
    simp only [Option.map_some]
    by_cases h : (p.id == i) = true
    · have h' : p.id = i := by simpa using h
      simp [h']
    · have h' : ¬(p.id = i) := by simpa using h
      simp [h']

theorem capturedItem_decProduct (i : Nat) (q : Int) (oid : Nat) (it : ItemReq)
    (ps : List ProductRow) :
    capturedItem (decProduct i q ps) oid it = capturedItem ps oid it := by
  simp [capturedItem, priceAt_decProduct]

theorem dec_then_dec (it : ItemReq) (rest : List ItemReq) (ps : List ProductRow) :
    (decProduct it.product_id it.quantity ps).map
        (fun p => { p with stock := p.stock - itemsTotal rest p.id }) =
      ps.map (fun p => { p with stock := p.stock - itemsTotal (it :: rest) p.id }) := by
  unfold decProduct
  rw [List.map_map]
  apply map_congr_on
  intro p _
  by_cases h : (p.id == it.product_id) = true
  · have h' : p.id = it.product_id := by simpa using h
    have h'' : (it.product_id == p.id) = true := by simp [h']
    cases p with
    | mk id name description price category stock image_url is_active =>
      simp only [Function.comp_apply, h, if_pos, itemsTotal] at *
      simp only [h'']
      simp only [if_pos]
      simp [ProductRow.mk.injEq]
      omega
  · have hne : p.id ≠ it.product_id := by simpa using h
    have h' : (it.product_id == p.id) = false := by
      simp only [beq_eq_false_iff_ne, ne_eq]
      exact fun he => hne he.symm
    cases p with
    | mk id name description price category stock image_url is_active =>
      simp only [Function.comp_apply, h, Bool.false_eq_true, if_false, itemsTotal]
      simp only [h']
      simp

theorem itemsTotal_nil_map (ps : List ProductRow) :
    ps.map (fun p => { p with stock := p.stock - itemsTotal [] p.id }) = ps := by
  apply map_id_of_fix
  intro p _
  cases p
  simp [itemsTotal]

theorem insertItems_char (items : List ItemReq) :
    ∀ (oid : Nat) (s s2 : Store), insertItems oid items s = Except.ok s2 →
    s2.orders = s.orders ∧ s2.next_product_id = s.next_product_id ∧
    s2.next_order_id = s.next_order_id ∧
    s2.order_items = s.order_items ++ items.map (capturedItem s.products oid) ∧
    s2.products = s.products.map
      (fun p => { p with stock := p.stock - itemsTotal items p.id }) ∧
    (∀ p ∈ s2.products, (∃ it ∈ items, it.product_id = p.id) → 0 ≤ p.stock) := by
  induction items with
  | nil =>
    intro oid s s2 h
    simp only [insertItems] at h
    cases h
    refine ⟨rfl, rfl, rfl, by simp, (itemsTotal_nil_map s.products).symm, ?_⟩
    intro p _ hex
    rcases hex with ⟨it, hit, _⟩
    cases hit
  | cons it rest ih =>
    intro oid s s2 h
    simp only [insertItems] at h
    split at h
    · exact absurd h (by simp)
    · rename_i p hp
      split at h
      · exact absurd h (by simp)
      · split at h
        · exact absurd h (by simp)
        · rename_i hc1 hc2
          have hall : (s.products.filter (fun q => q.id == it.product_id)).all
              (fun q => decide (0 ≤ q.stock - it.quantity) && decide (0 ≤ q.price)) = true :=
            bool_of_not_not _ hc2
          obtain ⟨ho, hnp, hno, hoi, hpr, hnn⟩ := ih oid _ s2 h
          have hpr2 : s2.products = s.products.map
              (fun p => { p with stock := p.stock - itemsTotal (it :: rest) p.id }) := by
            rw [hpr]
            exact dec_then_dec it rest s.products
          refine ⟨ho, hnp, hno, ?_, hpr2, ?_⟩
          · rw [hoi]
            simp [List.map_cons]
            intro a _
            exact capturedItem_decProduct _ _ _ _ _
          · intro p2 hp2 hex
            rcases hex with ⟨x, hx, hxid⟩
            rcases List.mem_cons.mp hx with rfl | hxr
            · by_cases hrest : ∃ y ∈ rest, y.product_id = p2.id
              · exact hnn p2 hp2 hrest
              · push_neg at hrest
                rw [hpr2] at hp2
                rcases List.mem_map.mp hp2 with ⟨p0, hp0, rfl⟩
                have hid0 : x.product_id = p0.id := by simpa using hxid
                have hb : (x.product_id == p0.id) = true := by simpa using hid0
                have hb' : (p0.id == x.product_id) = true := by
                  simpa using hid0.symm
                have hz : itemsTotal rest p0.id = 0 := by
                  apply itemsTotal_zero
                  intro y hy
                  have := hrest y hy
                  simpa using this
                have hmem : p0 ∈ s.products.filter (fun q => q.id == x.product_id) :=
                  List.mem_filter.mpr ⟨hp0, hb'⟩
                have hge := (List.all_eq_true.mp hall) p0 hmem
                simp only [Bool.and_eq_true, decide_eq_true_eq] at hge
                simp only [itemsTotal, hb, if_pos, hz]
                omega
            · exact hnn p2 hp2 ⟨x, hxr, hxid⟩

/-- Witness for the amended C2 theorem at the concrete oversell scenario. -/
theorem c2_no_oversell_witness :
    ([TxnEv.read1, TxnEv.read2, TxnEv.upd1, TxnEv.upd2] ∈ twoSchedules) ∧
    ((5 : Int) < 3 + 3) ∧
    ¬((execTwo 5 3 3 [TxnEv.read1, TxnEv.read2, TxnEv.upd1, TxnEv.upd2]).done1 = some true ∧
      (execTwo 5 3 3 [TxnEv.read1, TxnEv.read2, TxnEv.upd1, TxnEv.upd2]).done2 = some true) :=
  ⟨by decide, by decide, c2_no_oversell 5 3 3 _ (by decide) (by decide)⟩

theorem createOrder_ok_shape (delOk : Bool) (r : OrderReq) (s : Store) (c : Cache)
    (o : OrderRow) (s' : Store) (c' : Cache)
    (h : createOrder delOk r s c = (Except.ok o, s', c')) :
    delOk = true ∧ c' = cacheDel c CacheKey.productsAll ∧
    ∃ items, r.items = some items ∧ items ≠ [] ∧
      ∃ total, checkAndTotal s items = Except.ok total ∧
        o = { id := s.next_order_id,
              customer_name := r.customer_name.getD "",
              customer_email := r.customer_email.getD "",
              total_amount := total, status := "pending" } ∧
        insertItems s.next_order_id items
          { s with orders := s.orders ++ [o], next_order_id := s.next_order_id + 1 }
          = Except.ok s' := by
  simp only [createOrder] at h
  split at h
  · exact absurd h (by simp)
  · split at h
    · exact absurd h (by simp)
    · rename_i items hitems
      split at h
      · exact absurd h (by simp)
      · rename_i hne
        split at h
        · exact absurd h (by simp)
        · rename_i total htotal
          split at h
          · exact absurd h (by simp)
          · split at h
            · exact absurd h (by simp)
            · rename_i s2 hins
              split at h
              · exact absurd h (by simp)
              · rename_i hdel
                simp only [Prod.mk.injEq, Except.ok.injEq] at h
                obtain ⟨ho, hs, hc⟩ := h
                subst ho
                subst hs
                subst hc
                refine ⟨bool_of_not_not _ hdel, rfl, items, hitems, ?_, total, htotal,
                  rfl, hins⟩
                intro hnil
                subst hnil
                exact hne rfl

theorem createOrder_err_shape (delOk : Bool) (r : OrderReq) (s : Store) (c : Cache)
    (e : String) (s' : Store) (c' : Cache)
    (h : createOrder delOk r s c = (Except.error e, s', c')) :
    c' = c ∧ (delOk = true → s' = s) := by
  simp only [createOrder] at h
  split at h
  · simp only [Prod.mk.injEq, Except.error.injEq] at h
    exact ⟨h.2.2.symm, fun _ => h.2.1.symm⟩
  · split at h
    · simp only [Prod.mk.injEq, Except.error.injEq] at h
      exact ⟨h.2.2.symm, fun _ => h.2.1.symm⟩
    · split at h
      · simp only [Prod.mk.injEq, Except.error.injEq] at h
        exact ⟨h.2.2.symm, fun _ => h.2.1.symm⟩
      · split at h
        · simp only [Prod.mk.injEq, Except.error.injEq] at h
          exact ⟨h.2.2.symm, fun _ => h.2.1.symm⟩
        · split at h
          · simp only [Prod.mk.injEq, Except.error.injEq] at h
            exact ⟨h.2.2.symm, fun _ => h.2.1.symm⟩
          · split at h
            · simp only [Prod.mk.injEq, Except.error.injEq] at h
              exact ⟨h.2.2.symm, fun _ => h.2.1.symm⟩
            · split at h
              · rename_i hdel
                simp only [Prod.mk.injEq, Except.error.injEq] at h
                refine ⟨h.2.2.symm, fun hd => ?_⟩
                rw [hd] at hdel
                simp at hdel
              · exact absurd h (by simp)

/-- C1 amended: the store transaction of `create_order` is all-or-nothing —
on success the order row, one order-item row per requested item, and the
stock decrements are all visible and the aggregate cache key is invalidated;
every pre-commit failure (validation, product lookup, stock check, any check
constraint) leaves store and cache untouched. However, when the post-commit
cache invalidation fails, the operation reports an error even though the
committed transaction remains fully visible, so an error response does not
imply absence of observable side effects. -/
theorem c1_all_or_nothing (delOk : Bool) (r : OrderReq) (s : Store) (c : Cache)
    (res : Except String OrderRow) (s' : Store) (c' : Cache)
    (h : createOrder delOk r s c = (res, s', c')) :
    (∀ o, res = Except.ok o →
      s'.orders = s.orders ++ [o] ∧
      (∃ items, r.items = some items ∧
        s'.order_items = s.order_items ++ items.map (capturedItem s.products o.id) ∧
        s'.products = s.products.map
          (fun p => { p with stock := p.stock - itemsTotal items p.id })) ∧
      c' = cacheDel c CacheKey.productsAll ∧
      cacheLookup c' CacheKey.productsAll = none) ∧
    (∀ e, res = Except.error e → delOk = true → s' = s ∧ c' = c) ∧
    (delOk = false → c' = c ∧ ∀ o, res ≠ Except.ok o) := by
  refine ⟨?_, ?_, ?_⟩
  · intro o hres
    subst hres
    obtain ⟨hd, hc, items, hitems, hne, total, htotal, ho, hins⟩ :=
      createOrder_ok_shape delOk r s c o s' c' h
    obtain ⟨hor, _, _, hoi, hpr, _⟩ :=
      insertItems_char items s.next_order_id
        { s with orders := s.orders ++ [o], next_order_id := s.next_order_id + 1 } s' hins
    refine ⟨hor, ⟨items, hitems, ?_, hpr⟩, hc, ?_⟩
    · rw [hoi]
      rw [show o.id = s.next_order_id from by rw [ho]]
    · rw [hc]
      exact cacheLookup_del_self c CacheKey.productsAll
  · intro e hres hd
    subst hres
    have he := createOrder_err_shape delOk r s c e s' c' h
    exact ⟨he.2 hd, he.1⟩
  · intro hd
    subst hd
    constructor
    · cases hres2 : res with
      | error e =>
        rw [hres2] at h
        exact (createOrder_err_shape false r s c e s' c' h).1
      | ok o =>
        rw [hres2] at h
        exact absurd (createOrder_ok_shape false r s c o s' c' h).1 (by simp)
    · intro o hres2
      rw [hres2] at h
      exact absurd (createOrder_ok_shape false r s c o s' c' h).1 (by simp)

/-- Witness for the amended C1 theorem at the concrete valid order request
with a reliable cache. -/
theorem c1_all_or_nothing_witness :
    (createOrder true rqA stA []).2.1.orders = stA.orders ++
      [{ id := 2, customer_name := "Jo", customer_email := "jo@example.com",
         total_amount := 2000, status := "pending" }] ∧
    (∃ items, rqA.items = some items ∧
      (createOrder true rqA stA []).2.1.order_items =
        stA.order_items ++ items.map (capturedItem stA.products 2) ∧
      (createOrder true rqA stA []).2.1.products = stA.products.map
        (fun p => { p with stock := p.stock - itemsTotal items p.id })) ∧
    (createOrder true rqA stA []).2.2 = cacheDel [] CacheKey.productsAll ∧
    cacheLookup (createOrder true rqA stA []).2.2 CacheKey.productsAll = none :=
  (c1_all_or_nothing true rqA stA []
    (Except.ok { id := 2, customer_name := "Jo", customer_email := "jo@example.com",
                 total_amount := 2000, status := "pending" })
    (createOrder true rqA stA []).2.1 (createOrder true rqA stA []).2.2 rfl).1
    { id := 2, customer_name := "Jo", customer_email := "jo@example.com",
      total_amount := 2000, status := "pending" } rfl

/-- C10: a successful `create_order` deletes only the `products:all` cache
key: every `product:{id}` entry is untouched (same raw entries, same `GET`
results at any time before the entry's expiry), and a `get_product` served
from a `product:{id}` entry populated before the order returns exactly that
pre-order cached value. -/
theorem c10_frame (r : OrderReq) (s : Store) (c : Cache) (o : OrderRow)
    (s' : Store) (c' : Cache)
    (h : createOrder true r s c = (Except.ok o, s', c')) :
    c' = cacheDel c CacheKey.productsAll ∧
    cacheLookup c' CacheKey.productsAll = none ∧
    (∀ i, cacheLookup c' (CacheKey.product i) = cacheLookup c (CacheKey.product i)) ∧
    (∀ now i, cacheGet c' now (CacheKey.product i) = cacheGet c now (CacheKey.product i)) ∧
    (∀ now i p, cacheGet c' now (CacheKey.product i) = some (CacheValue.one p) →
      getProduct true true now i s' c' = (Except.ok (Src.cache, CacheValue.one p), c')) := by
  have hc := (createOrder_ok_shape true r s c o s' c' h).2.1
  subst hc
  refine ⟨rfl, cacheLookup_del_self c _, fun i => cacheLookup_del_all c i,
    fun now i => cacheGet_del_all c now i, ?_⟩
  intro now i p hhit
  simp [getProduct, hhit]

/-- Witness for C10: the concrete order on the concrete store, with product 1
cached before the order. -/
theorem c10_frame_witness :
    cacheLookup (createOrder true rqA stA
        [{ key := CacheKey.product 1, val := CacheValue.one pA, expiry := 1000 }]).2.2
      CacheKey.productsAll = none ∧
    (∀ i, cacheLookup (createOrder true rqA stA
        [{ key := CacheKey.product 1, val := CacheValue.one pA, expiry := 1000 }]).2.2
        (CacheKey.product i) =
      cacheLookup [{ key := CacheKey.product 1, val := CacheValue.one pA, expiry := 1000 }]
        (CacheKey.product i)) := by
  have hw := c10_frame rqA stA
    [{ key := CacheKey.product 1, val := CacheValue.one pA, expiry := 1000 }]
    { id := 2, customer_name := "Jo", customer_email := "jo@example.com",
      total_amount := 2000, status := "pending" }
    (createOrder true rqA stA
      [{ key := CacheKey.product 1, val := CacheValue.one pA, expiry := 1000 }]).2.1
    (createOrder true rqA stA
      [{ key := CacheKey.product 1, val := CacheValue.one pA, expiry := 1000 }]).2.2
    rfl
  exact ⟨hw.2.1, hw.2.2.1⟩

theorem priceAt_of_productQuery (s : Store) (i : Nat) (p : ProductRow)
    (huniq : uniqueIds s) (hq : productQuery s i = some p) :
    priceAt s.products i = p.price := by
  have hpl : p ∈ s.products.filter (fun q => q.id == i && q.is_active) :=
    List.mem_of_mem_head? (by rw [← productQuery]; exact hq)
  have hpmem : p ∈ s.products := (List.mem_filter.mp hpl).1
  have hpid : p.id = i := by
    have := (List.mem_filter.mp hpl).2
    simp only [Bool.and_eq_true, beq_iff_eq] at this
    exact this.1
  cases hl : s.products.filter (fun q => q.id == i) with
  | nil =>
    exfalso
    have hm : p ∈ s.products.filter (fun q => q.id == i) :=
      List.mem_filter.mpr ⟨hpmem, by simp [hpid]⟩
    rw [hl] at hm
    cases hm
  | cons q t =>
    have hq0 : q ∈ s.products.filter (fun q => q.id == i) := by
      rw [hl]
      exact List.mem_cons_self q t
    have hqid : q.id = i := by simpa using (List.mem_filter.mp hq0).2
    have hp2 : p ∈ q :: t := by
      rw [← hl]
      exact List.mem_filter.mpr ⟨hpmem, by simp [hpid]⟩
    have hpair : (q :: t).Pairwise (fun a b => a.id ≠ b.id) := by
      rw [← hl]
      exact huniq.filter _
    rcases List.mem_cons.mp hp2 with rfl | hpt
    · simp [priceAt, hl]
    · exact absurd (hqid.trans hpid.symm) ((List.pairwise_cons.mp hpair).1 p hpt)

theorem checkAndTotal_ok (s : Store) (items : List ItemReq)
    (huniq : uniqueIds s)
    (hact : ∀ it ∈ items, ∃ p, productQuery s it.product_id = some p ∧
      it.quantity ≤ p.stock) :
    checkAndTotal s items =
      Except.ok ((items.map
        (fun it => priceAt s.products it.product_id * it.quantity)).sum) := by
  induction items with
  | nil => simp [checkAndTotal]
  | cons it rest ih =>
    obtain ⟨p, hp, hle⟩ := hact it (List.mem_cons_self it rest)
    have hpa := priceAt_of_productQuery s it.product_id p huniq hp
    simp only [checkAndTotal, hp]
    rw [if_neg (not_lt.mpr hle)]
    rw [ih (fun x hx => hact x (List.mem_cons_of_mem _ hx))]
    simp [hpa]

theorem insertItems_ok_of (items : List ItemReq) :
    ∀ (oid : Nat) (s : Store),
    (∀ it ∈ items, 0 < it.quantity) →
    (∀ it ∈ items, ∃ p ∈ s.products, p.id = it.product_id) →
    (∀ p ∈ s.products, 0 ≤ p.price) →
    (∀ p ∈ s.products, (∃ it ∈ items, it.product_id = p.id) →
      itemsTotal items p.id ≤ p.stock) →
    ∃ s2, insertItems oid items s = Except.ok s2 := by
  induction items with
  | nil =>
    intro oid s _ _ _ _
    exact ⟨s, rfl⟩
  | cons it rest ih =>
    intro oid s hq hex hpr hst
    obtain ⟨p, hpmem, hpid⟩ := hex it (List.mem_cons_self it rest)
    obtain ⟨p0, hp0⟩ : ∃ p0,
        (s.products.filter (fun q => q.id == it.product_id)).head? = some p0 := by
      cases hh : (s.products.filter (fun q => q.id == it.product_id)).head? with
      | none =>
        exfalso
        have hm : p ∈ s.products.filter (fun q => q.id == it.product_id) :=
          List.mem_filter.mpr ⟨hpmem, by simp [hpid]⟩
        rw [List.head?_eq_none_iff.mp hh] at hm
        cases hm
      | some p0 => exact ⟨p0, rfl⟩
    have hp0mem : p0 ∈ s.products :=
      (List.mem_filter.mp (List.mem_of_mem_head? hp0)).1
    have hg1 : (decide (0 < it.quantity) && decide (0 ≤ p0.price)) = true := by
      simp only [Bool.and_eq_true, decide_eq_true_eq]
      exact ⟨hq it (List.mem_cons_self it rest), hpr p0 hp0mem⟩
    have hg2 : (s.products.filter (fun q => q.id == it.product_id)).all
        (fun q => decide (0 ≤ q.stock - it.quantity) && decide (0 ≤ q.price)) = true := by
      rw [List.all_eq_true]
      intro q hqm
      have hqmem := (List.mem_filter.mp hqm).1
      have hqid : q.id = it.product_id := by simpa using (List.mem_filter.mp hqm).2
      have h1 := hst q hqmem ⟨it, List.mem_cons_self it rest, hqid.symm⟩
      have h2 : it.quantity ≤ itemsTotal (it :: rest) q.id := by
        rw [hqid]
        exact le_itemsTotal_of_mem (it :: rest) it (List.mem_cons_self it rest) hq
      simp only [Bool.and_eq_true, decide_eq_true_eq]
      exact ⟨by omega, hpr q hqmem⟩
    have hq' : ∀ x ∈ rest, 0 < x.quantity :=
      fun x hx => hq x (List.mem_cons_of_mem _ hx)
    have hex' : ∀ x ∈ rest, ∃ p2 ∈ decProduct it.product_id it.quantity s.products,
        p2.id = x.product_id := by
      intro x hx
      obtain ⟨px, hpxmem, hpxid⟩ := hex x (List.mem_cons_of_mem _ hx)
      refine ⟨if px.id == it.product_id then
        { px with stock := px.stock - it.quantity } else px,
        List.mem_map.mpr ⟨px, hpxmem, rfl⟩, ?_⟩
      by_cases hb : (px.id == it.product_id) = true
      · simp only [hb, if_true]
        exact hpxid
      · simp only [hb, Bool.false_eq_true, if_false]
        exact hpxid
    have hpr' : ∀ q ∈ decProduct it.product_id it.quantity s.products,
        0 ≤ q.price := by
      intro q hqm
      rcases List.mem_map.mp hqm with ⟨p1, hp1, rfl⟩
      by_cases hb : (p1.id == it.product_id) = true
      · simpa [hb] using hpr p1 hp1
      · simpa [hb] using hpr p1 hp1
    have hst' : ∀ q ∈ decProduct it.product_id it.quantity s.products,
        (∃ x ∈ rest, x.product_id = q.id) → itemsTotal rest q.id ≤ q.stock := by
      intro q hqm hex2
      rcases List.mem_map.mp hqm with ⟨p1, hp1, rfl⟩
      rcases hex2 with ⟨x, hx, hxid⟩
      by_cases hb : (p1.id == it.product_id) = true
      · simp only [hb, if_true] at hxid ⊢
        have h1 := hst p1 hp1 ⟨x, List.mem_cons_of_mem _ hx, hxid⟩
        have hb' : (it.product_id == p1.id) = true := by
          have hpe : p1.id = it.product_id := by simpa using hb
          simp [hpe]
        simp only [itemsTotal, hb', if_true] at h1
        omega
      · simp only [hb, Bool.false_eq_true, if_false] at hxid ⊢
        have h1 := hst p1 hp1 ⟨x, List.mem_cons_of_mem _ hx, hxid⟩
        have hb' : (it.product_id == p1.id) = false := by
          have hpe : ¬(p1.id = it.product_id) := by simpa using hb
          simp only [beq_eq_false_iff_ne, ne_eq]
          exact fun he => hpe he.symm
        simp only [itemsTotal, hb', Bool.false_eq_true, if_false] at h1
        omega
    obtain ⟨s2, hs2⟩ := ih oid
      { s with order_items := s.order_items ++ [capturedItem s.products oid it],
               products := decProduct it.product_id it.quantity s.products }
      hq' hex' hpr' hst'
    refine ⟨s2, ?_⟩
    simp only [insertItems, hp0, hg1, hg2, Bool.not_true, Bool.false_eq_true, if_false]
    exact hs2


/-- C3 amended: for every order request with non-empty customer fields and a
non-empty item list in which every item references an active product, every
quantity is strictly positive (the `order_items` check constraint demands
`quantity > 0` — quantity 0 makes the transaction fail), and for every
product the summed requested quantity across the order's items is at most its
stock (per-item stock checks do not protect a product listed twice),
`create_order` (with the post-commit cache invalidation succeeding) succeeds,
and the stored order's `total_amount` exactly equals the sum of (captured
unit price × quantity) over the order's resulting `order_items` rows, in
exact fixed-point (cent) arithmetic. Product ids are assumed unique
(`SERIAL PRIMARY KEY`) and prices non-negative (`CHECK (price >= 0)`). -/
theorem c3_total_amount (r : OrderReq) (s : Store) (c : Cache) (items : List ItemReq)
    (hn : truthyS r.customer_name = true) (he : truthyS r.customer_email = true)
    (hi : r.items = some items) (hne : items ≠ [])
    (hq : ∀ it ∈ items, 0 < it.quantity)
    (hact : ∀ it ∈ items, ∃ p, productQuery s it.product_id = some p)
    (hst : ∀ p ∈ s.products, (∃ it ∈ items, it.product_id = p.id) →
      itemsTotal items p.id ≤ p.stock)
    (hpr : ∀ p ∈ s.products, 0 ≤ p.price)
    (huniq : uniqueIds s) :
    ∃ o s' c', createOrder true r s c = (Except.ok o, s', c') ∧
      s'.order_items = s.order_items ++ items.map (capturedItem s.products o.id) ∧
      o.total_amount =
        ((items.map (capturedItem s.products o.id)).map
          (fun x => x.price * x.quantity)).sum := by
  have hact' : ∀ it ∈ items, ∃ p, productQuery s it.product_id = some p ∧
      it.quantity ≤ p.stock := by
    intro it hit
    obtain ⟨p, hp⟩ := hact it hit
    have hpl : p ∈ s.products.filter (fun q => q.id == it.product_id && q.is_active) :=
      List.mem_of_mem_head? hp
    have hpmem : p ∈ s.products := (List.mem_filter.mp hpl).1
    have hpid : p.id = it.product_id := by
      have := (List.mem_filter.mp hpl).2
      simp only [Bool.and_eq_true, beq_iff_eq] at this
      exact this.1
    have h1 := hst p hpmem ⟨it, hit, hpid.symm⟩
    have h2 := le_itemsTotal_of_mem items it hit hq
    rw [hpid] at h1
    exact ⟨p, hp, by omega⟩
  have htot := checkAndTotal_ok s items huniq hact'
  have hTnn : 0 ≤ (items.map
      (fun it => priceAt s.products it.product_id * it.quantity)).sum := by
    apply List.sum_nonneg
    intro v hv
    rcases List.mem_map.mp hv with ⟨it, hit, rfl⟩
    obtain ⟨p, hp⟩ := hact it hit
    rw [priceAt_of_productQuery s it.product_id p huniq hp]
    have hpmem : p ∈ s.products :=
      (List.mem_filter.mp (List.mem_of_mem_head? hp)).1
    exact mul_nonneg (hpr p hpmem) (le_of_lt (hq it hit))
  have hok : orderOkRow
      { id := s.next_order_id, customer_name := r.customer_name.getD "",
        customer_email := r.customer_email.getD "",
        total_amount := (items.map
          (fun it => priceAt s.products it.product_id * it.quantity)).sum,
        status := "pending" } = true := by
    simp only [orderOkRow]
    rw [decide_eq_true hTnn]
    rfl
  have hex0 : ∀ it ∈ items, ∃ p ∈ s.products, p.id = it.product_id := by
    intro it hit
    obtain ⟨p, hp⟩ := hact it hit
    have hpl : p ∈ s.products.filter (fun q => q.id == it.product_id && q.is_active) :=
      List.mem_of_mem_head? hp
    refine ⟨p, (List.mem_filter.mp hpl).1, ?_⟩
    have := (List.mem_filter.mp hpl).2
    simp only [Bool.and_eq_true, beq_iff_eq] at this
    exact this.1
  obtain ⟨s2, hs2⟩ := insertItems_ok_of items s.next_order_id
    { s with
      orders := s.orders ++
        [{ id := s.next_order_id, customer_name := r.customer_name.getD "",
           customer_email := r.customer_email.getD "",
           total_amount := (items.map
             (fun it => priceAt s.products it.product_id * it.quantity)).sum,
           status := "pending" }],
      next_order_id := s.next_order_id + 1 }
    hq hex0 hpr hst
  have hv : (truthyS r.customer_name && truthyS r.customer_email) = true := by
    rw [hn, he]
    rfl
  have hie : items.isEmpty = false := by
    cases items with
    | nil => exact absurd rfl hne
    | cons a t => rfl
  have hmain : createOrder true r s c =
      (Except.ok
        { id := s.next_order_id, customer_name := r.customer_name.getD "",
          customer_email := r.customer_email.getD "",
          total_amount := (items.map
            (fun it => priceAt s.products it.product_id * it.quantity)).sum,
          status := "pending" },
       s2, cacheDel c CacheKey.productsAll) := by
    simp only [createOrder, hv, Bool.not_true, Bool.false_eq_true, if_false, hi, hie,
      htot, hok, Bool.not_false, if_true, hs2]
  obtain ⟨_, _, _, hoi, _, _⟩ := insertItems_char items s.next_order_id _ s2 hs2
  refine ⟨_, s2, cacheDel c CacheKey.productsAll, hmain, hoi, ?_⟩
  rw [List.map_map]
  rfl

/-- Witness for the amended C3 theorem: the concrete order request for 2
units of product 1 at price 10.00 on the concrete store. -/
theorem c3_total_amount_witness :
    ∃ o s' c', createOrder true rqA stA [] = (Except.ok o, s', c') ∧
      s'.order_items = stA.order_items ++
        [({ product_id := 1, quantity := 2 } : ItemReq)].map
          (capturedItem stA.products o.id) ∧
      o.total_amount =
        (([({ product_id := 1, quantity := 2 } : ItemReq)].map
          (capturedItem stA.products o.id)).map
            (fun x => x.price * x.quantity)).sum := by
  refine c3_total_amount rqA stA [] [{ product_id := 1, quantity := 2 }]
    rfl rfl rfl (by decide) (by decide) ?_ (by decide) (by decide)
    (by unfold uniqueIds; decide)
  intro it hit
  have : it = { product_id := 1, quantity := 2 } := by
    simpa using hit
  subst this
  exact ⟨pA, rfl⟩


theorem createOrder_store_shape (delOk : Bool) (r : OrderReq) (s : Store) (c : Cache) :
    (createOrder delOk r s c).2.1 = s ∨
    ∃ items oL s2, r.items = some items ∧
      insertItems s.next_order_id items
        { s with orders := s.orders ++ [oL], next_order_id := s.next_order_id + 1 }
        = Except.ok s2 ∧
      (createOrder delOk r s c).2.1 = s2 := by
  simp only [createOrder]
  split
  · left
    rfl
  · split
    · left
      rfl
    · rename_i items hitems
      split
      · left
        rfl
      · split
        · left
          rfl
        · rename_i total htotal
          split
          · left
            rfl
          · split
            · left
              rfl
            · rename_i s2 hins
              split
              · right
                exact ⟨items, _, s2, hitems, hins, rfl⟩
              · right
                exact ⟨items, _, s2, hitems, hins, rfl⟩

theorem createProduct_nonneg (d : Bool) (r : ProductReq) (s : Store) (c : Cache)
    (h : ∀ p ∈ s.products, 0 ≤ p.stock) :
    ∀ p ∈ (createProduct d r s c).2.1.products, 0 ≤ p.stock := by
  simp only [createProduct]
  split
  · exact h
  · split
    · exact h
    · rename_i hrow
      have hrow' := bool_of_not_not _ hrow
      simp only [productOkRow, Bool.and_eq_true, decide_eq_true_eq] at hrow'
      have key : ∀ p ∈ s.products ++
          [{ id := s.next_product_id, name := r.name.getD "",
             description := r.description, price := r.price.getD 0,
             category := r.category.getD "", stock := r.stock.getD 0,
             image_url := r.image_url, is_active := true }], 0 ≤ p.stock := by
        intro p hp
        rcases List.mem_append.mp hp with h1 | h2
        · exact h p h1
        · rw [List.mem_singleton] at h2
          subst h2
          exact hrow'.2
      split
      · exact key
      · exact key

theorem updateProduct_nonneg (da di : Bool) (i : Nat) (r : ProductReq)
    (s : Store) (c : Cache) (h : ∀ p ∈ s.products, 0 ≤ p.stock) :
    ∀ p ∈ (updateProduct da di i r s c).2.1.products, 0 ≤ p.stock := by
  simp only [updateProduct]
  split
  · exact h
  · rename_i p hp
    split
    · exact h
    · rename_i hall
      have hall' := bool_of_not_not _ hall
      have key : ∀ q ∈ applyUpdateAll r i s.products, 0 ≤ q.stock := by
        intro q hq
        rcases List.mem_map.mp hq with ⟨p0, hp0, rfl⟩
        by_cases hc : (p0.id == i && p0.is_active) = true
        · simp only [hc, if_true]
          have hm : p0 ∈ s.products.filter (fun q => q.id == i && q.is_active) :=
            List.mem_filter.mpr ⟨hp0, hc⟩
          have hok := (List.all_eq_true.mp hall') p0 hm
          simp only [productOkRow, Bool.and_eq_true, decide_eq_true_eq] at hok
          exact hok.2
        · simp only [hc, Bool.false_eq_true, if_false]
          exact h p0 hp0
      split
      · exact key
      · split
        · exact key
        · exact key

theorem deleteProduct_nonneg (da di : Bool) (i : Nat) (s : Store) (c : Cache)
    (h : ∀ p ∈ s.products, 0 ≤ p.stock) :
    ∀ p ∈ (deleteProduct da di i s c).2.1.products, 0 ≤ p.stock := by
  simp only [deleteProduct]
  split
  · exact h
  · have key : ∀ q ∈ deactivate i s.products, 0 ≤ q.stock := by
      intro q hq
      rcases List.mem_map.mp hq with ⟨p0, hp0, rfl⟩
      by_cases hc : (p0.id == i) = true
      · simp only [hc, if_true]
        exact h p0 hp0
      · simp only [hc, Bool.false_eq_true, if_false]
        exact h p0 hp0
    split
    · exact key
    · split
      · exact key
      · exact key

theorem createOrder_nonneg (d : Bool) (r : OrderReq) (s : Store) (c : Cache)
    (h : ∀ p ∈ s.products, 0 ≤ p.stock) :
    ∀ p ∈ (createOrder d r s c).2.1.products, 0 ≤ p.stock := by
  rcases createOrder_store_shape d r s c with hs | ⟨items, oL, s2, hitems, hins, hs⟩
  · rw [hs]
    exact h
  · rw [hs]
    obtain ⟨_, _, _, _, hpr, hnn⟩ := insertItems_char items s.next_order_id _ s2 hins
    intro p2 hp2
    by_cases htouch : ∃ it ∈ items, it.product_id = p2.id
    · exact hnn p2 hp2 htouch
    · push_neg at htouch
      rw [hpr] at hp2
      rcases List.mem_map.mp hp2 with ⟨p0, hp0, rfl⟩
      have hz : itemsTotal items p0.id = 0 := by
        apply itemsTotal_zero
        intro y hy
        have := htouch y hy
        simpa using this
      simp only [hz, sub_zero]
      exact h p0 hp0

theorem updateOrderStatus_products (i : Nat) (st : String) (s : Store) :
    (updateOrderStatus i st s).2.products = s.products := by
  simp only [updateOrderStatus]
  split
  · rfl
  · split
    · rfl
    · rfl

theorem stepOp_nonneg (op : Op) (sc : Store × Cache)
    (h : ∀ p ∈ sc.1.products, 0 ≤ p.stock) :
    ∀ p ∈ (stepOp op sc).1.products, 0 ≤ p.stock := by
  cases op with
  | listP g pk n => exact h
  | getP g pk n i => exact h
  | createP d r => exact createProduct_nonneg d r sc.1 sc.2 h
  | updateP da di i r => exact updateProduct_nonneg da di i r sc.1 sc.2 h
  | deleteP da di i => exact deleteProduct_nonneg da di i sc.1 sc.2 h
  | orderC d r => exact createOrder_nonneg d r sc.1 sc.2 h
  | statusU i st =>
    simp only [stepOp, updateOrderStatus_products]
    exact h
  | listO => exact h
  | statsQ => exact h

theorem run_nonneg (ops : List Op) (sc : Store × Cache)
    (h : ∀ p ∈ sc.1.products, 0 ≤ p.stock) :
    ∀ p ∈ (run ops sc).1.products, 0 ≤ p.stock := by
  induction ops generalizing sc with
  | nil => exact h
  | cons op rest ih => exact ih (stepOp op sc) (stepOp_nonneg op sc h)

/-- C7: no product's stock is ever negative — every API operation (in any
sequence, including orders listing the same product twice) preserves
non-negativity of all stocks; a successful `create_order` decrements each
product's stock by exactly the summed quantity of the order's items for that
product, leaving every touched product's stock non-negative; and when
`create_order` reports an error with the cache invalidation reliable, the
store is unchanged. -/
theorem c7_stock_nonneg :
    (∀ (ops : List Op) (s : Store) (c : Cache),
      (∀ p ∈ s.products, 0 ≤ p.stock) →
      ∀ p ∈ (run ops (s, c)).1.products, 0 ≤ p.stock) ∧
    (∀ delOk r s c o s' c', createOrder delOk r s c = (Except.ok o, s', c') →
      ∃ items, r.items = some items ∧
        s'.products = s.products.map
          (fun p => { p with stock := p.stock - itemsTotal items p.id }) ∧
        (∀ p ∈ s'.products, (∃ it ∈ items, it.product_id = p.id) → 0 ≤ p.stock)) ∧
    (∀ r s c e s' c', createOrder true r s c = (Except.error e, s', c') →
      s' = s ∧ c' = c) := by
  refine ⟨?_, ?_, ?_⟩
  · intro ops s c h
    exact run_nonneg ops (s, c) h
  · intro delOk r s c o s' c' h
    obtain ⟨hd, hc, items, hitems, hne, total, htotal, ho, hins⟩ :=
      createOrder_ok_shape delOk r s c o s' c' h
    obtain ⟨_, _, _, _, hpr, hnn⟩ := insertItems_char items s.next_order_id _ s' hins
    exact ⟨items, hitems, hpr, hnn⟩
  · intro r s c e s' c' h
    have he := createOrder_err_shape true r s c e s' c' h
    exact ⟨he.2 rfl, he.1⟩

/-- Witness for C7 at a concrete trace: an order for 2 units of product 1 on
the concrete store, followed by an oversell attempt. -/
theorem c7_stock_nonneg_witness :
    (∀ p ∈ stA.products, 0 ≤ p.stock) ∧
    ∀ p ∈ (run [Op.orderC true rqA, Op.orderC true rqA, Op.orderC true rqA]
      (stA, [])).1.products, 0 ≤ p.stock :=
  ⟨by decide, c7_stock_nonneg.1 [Op.orderC true rqA, Op.orderC true rqA, Op.orderC true rqA]
    stA [] (by decide)⟩


theorem listProducts_cache_cases (g p : Bool) (now : Nat) (s : Store) (c : Cache) :
    (listProducts g p now s c).2 = c ∨
    (listProducts g p now s c).2 =
      cacheSet c CacheKey.productsAll (CacheValue.many (activeProducts s)) (now + 300) := by
  simp only [listProducts]
  split
  · left
    rfl
  · split
    · left
      rfl
    · split
      · left
        rfl
      · right
        rfl

theorem getProduct_cache_cases (g p : Bool) (now i : Nat) (s : Store) (c : Cache) :
    (getProduct g p now i s c).2 = c ∨
    ∃ q, productQuery s i = some q ∧
      (getProduct g p now i s c).2 =
        cacheSet c (CacheKey.product i) (CacheValue.one q) (now + 600) := by
  simp only [getProduct]
  split
  · left
    rfl
  · split
    · left
      rfl
    · split
      · left
        rfl
      · rename_i q hq
        split
        · left
          rfl
        · right
          exact ⟨q, hq, rfl⟩

theorem createProduct_cache_cases (d : Bool) (r : ProductReq) (s : Store) (c : Cache) :
    (createProduct d r s c).2.2 = c ∨
    (createProduct d r s c).2.2 = cacheDel c CacheKey.productsAll := by
  simp only [createProduct]
  split
  · left
    rfl
  · split
    · left
      rfl
    · split
      · left
        rfl
      · right
        rfl

theorem updateProduct_cache_cases (da di : Bool) (i : Nat) (r : ProductReq)
    (s : Store) (c : Cache) :
    (updateProduct da di i r s c).2.2 = c ∨
    (updateProduct da di i r s c).2.2 = cacheDel c CacheKey.productsAll ∨
    (updateProduct da di i r s c).2.2 =
      cacheDel (cacheDel c CacheKey.productsAll) (CacheKey.product i) := by
  simp only [updateProduct]
  split
  · left
    rfl
  · split
    · left
      rfl
    · split
      · left
        rfl
      · split
        · right
          left
          rfl
        · right
          right
          rfl

theorem deleteProduct_cache_cases (da di : Bool) (i : Nat) (s : Store) (c : Cache) :
    (deleteProduct da di i s c).2.2 = c ∨
    (deleteProduct da di i s c).2.2 = cacheDel c CacheKey.productsAll ∨
    (deleteProduct da di i s c).2.2 =
      cacheDel (cacheDel c CacheKey.productsAll) (CacheKey.product i) := by
  simp only [deleteProduct]
  split
  · left
    rfl
  · split
    · left
      rfl
    · split
      · right
        left
        rfl
      · right
        right
        rfl

theorem createOrder_cache_cases (d : Bool) (r : OrderReq) (s : Store) (c : Cache) :
    (createOrder d r s c).2.2 = c ∨
    (createOrder d r s c).2.2 = cacheDel c CacheKey.productsAll := by
  simp only [createOrder]
  split
  · left
    rfl
  · split
    · left
      rfl
    · split
      · left
        rfl
      · split
        · left
          rfl
        · split
          · left
            rfl
          · split
            · left
              rfl
            · split
              · left
                rfl
              · right
                rfl

theorem entryCoh_mono (x : Nat) (h1 h2 : List Store)
    (hsub : ∀ t ∈ h1, t ∈ h2) (e : CEntry) (h : entryCoh x h1 e) :
    entryCoh x h2 e := by
  obtain ⟨ha, hb⟩ := h
  constructor
  · intro hk
    obtain ⟨s, hs, p, hp, hv⟩ := ha hk
    exact ⟨s, hsub s hs, p, hp, hv⟩
  · intro hk
    obtain ⟨s, hs, hv⟩ := hb hk
    exact ⟨s, hsub s hs, hv⟩

theorem cacheCoh_mono (x : Nat) (h1 h2 : List Store)
    (hsub : ∀ t ∈ h1, t ∈ h2) (c : Cache) (h : cacheCoh x h1 c) :
    cacheCoh x h2 c :=
  fun e he => entryCoh_mono x h1 h2 hsub e (h e he)

theorem cacheCoh_del (x : Nat) (hist : List Store) (c : Cache) (k : CacheKey)
    (h : cacheCoh x hist c) : cacheCoh x hist (cacheDel c k) :=
  fun e he => h e (List.mem_of_mem_filter he)

theorem cacheCoh_set (x : Nat) (hist : List Store) (c : Cache) (k : CacheKey)
    (v : CacheValue) (exp : Nat) (h : cacheCoh x hist c)
    (he : entryCoh x hist { key := k, val := v, expiry := exp }) :
    cacheCoh x hist (cacheSet c k v exp) := by
  intro e hme
  rcases List.mem_cons.mp hme with rfl | hmem
  · exact he
  · exact h e (List.mem_of_mem_filter hmem)

theorem entryCoh_all_entry (x : Nat) (hist : List Store) (s : Store) (exp : Nat)
    (hs : s ∈ hist) :
    entryCoh x hist
      { key := CacheKey.productsAll, val := CacheValue.many (activeProducts s),
        expiry := exp } := by
  constructor
  · intro hk
    exact CacheKey.noConfusion hk
  · intro _
    exact ⟨s, hs, rfl⟩

theorem entryCoh_one_entry (x : Nat) (hist : List Store) (s : Store) (i : Nat)
    (q : ProductRow) (exp : Nat) (hs : s ∈ hist) (hq : productQuery s i = some q) :
    entryCoh x hist
      { key := CacheKey.product i, val := CacheValue.one q, expiry := exp } := by
  constructor
  · intro hk
    have hix : i = x := by
      have := CacheKey.product.injEq i x
      rw [this] at hk
      exact hk
    subst hix
    exact ⟨s, hs, q, hq, rfl⟩
  · intro hk
    exact CacheKey.noConfusion hk

theorem stepOp_coh (x : Nat) (op : Op) (sc : Store × Cache) (hist : List Store)
    (hmem : sc.1 ∈ hist) (h : cacheCoh x hist sc.2) :
    (stepOp op sc).1 ∈ hist ++ [(stepOp op sc).1] ∧
    cacheCoh x (hist ++ [(stepOp op sc).1]) (stepOp op sc).2 := by
  have hsub : ∀ t ∈ hist, t ∈ hist ++ [(stepOp op sc).1] :=
    fun t ht => List.mem_append_left _ ht
  have hmono : cacheCoh x (hist ++ [(stepOp op sc).1]) sc.2 :=
    cacheCoh_mono x hist _ hsub sc.2 h
  have hmem' : sc.1 ∈ hist ++ [(stepOp op sc).1] := hsub sc.1 hmem
  refine ⟨List.mem_append_right _ (List.mem_singleton.mpr rfl), ?_⟩
  cases op with
  | listP g p n =>
    rcases listProducts_cache_cases g p n sc.1 sc.2 with hc | hc
    · simp only [stepOp]
      rw [hc]
      exact hmono
    · simp only [stepOp]
      rw [hc]
      exact cacheCoh_set x _ sc.2 _ _ _ hmono
        (entryCoh_all_entry x _ sc.1 (n + 300) hmem')
  | getP g p n i =>
    rcases getProduct_cache_cases g p n i sc.1 sc.2 with hc | ⟨q, hq, hc⟩
    · simp only [stepOp]
      rw [hc]
      exact hmono
    · simp only [stepOp]
      rw [hc]
      exact cacheCoh_set x _ sc.2 _ _ _ hmono
        (entryCoh_one_entry x _ sc.1 i q (n + 600) hmem' hq)
  | createP d r =>
    rcases createProduct_cache_cases d r sc.1 sc.2 with hc | hc
    · simp only [stepOp]
      rw [hc]
      exact hmono
    · simp only [stepOp]
      rw [hc]
      exact cacheCoh_del x _ sc.2 _ hmono
  | updateP da di i r =>
    rcases updateProduct_cache_cases da di i r sc.1 sc.2 with hc | hc | hc <;>
      (simp only [stepOp]; rw [hc])
    · exact hmono
    · exact cacheCoh_del x _ sc.2 _ hmono
    · exact cacheCoh_del x _ _ _ (cacheCoh_del x _ sc.2 _ hmono)
  | deleteP da di i =>
    rcases deleteProduct_cache_cases da di i sc.1 sc.2 with hc | hc | hc <;>
      (simp only [stepOp]; rw [hc])
    · exact hmono
    · exact cacheCoh_del x _ sc.2 _ hmono
    · exact cacheCoh_del x _ _ _ (cacheCoh_del x _ sc.2 _ hmono)
  | orderC d r =>
    rcases createOrder_cache_cases d r sc.1 sc.2 with hc | hc
    · simp only [stepOp]
      rw [hc]
      exact hmono
    · simp only [stepOp]
      rw [hc]
      exact cacheCoh_del x _ sc.2 _ hmono
  | statusU i st => exact hmono
  | listO => exact hmono
  | statsQ => exact hmono

theorem run_coh (x : Nat) (ops : List Op) :
    ∀ (sc : Store × Cache) (hist : List Store),
    sc.1 ∈ hist → cacheCoh x hist sc.2 →
    (run ops sc).1 ∈ hist ++ tailStores ops sc ∧
    cacheCoh x (hist ++ tailStores ops sc) (run ops sc).2 := by
  induction ops with
  | nil =>
    intro sc hist h1 h2
    simp only [run, List.foldl_nil, tailStores, List.append_nil]
    exact ⟨h1, h2⟩
  | cons op rest ih =>
    intro sc hist h1 h2
    obtain ⟨m1, m2⟩ := stepOp_coh x op sc hist h1 h2
    have hrec := ih (stepOp op sc) (hist ++ [(stepOp op sc).1]) m1 m2
    simp only [run, List.foldl_cons] at hrec ⊢
    simp only [tailStores]
    simpa [List.append_assoc] using hrec

theorem getProduct_fresh (x : Nat) (hist : List Store) (s : Store) (c : Cache)
    (hmem : s ∈ hist) (hcoh : cacheCoh x hist c) (g p : Bool) (now : Nat)
    (res : Except String (Src × CacheValue)) (c2 : Cache)
    (h : getProduct g p now x s c = (res, c2)) :
    res = Except.error "Internal server error" ∨
    (res = Except.error "Product not found" ∧ productQuery s x = none) ∨
    (∃ src q, res = Except.ok (src, CacheValue.one q) ∧
      ∃ t ∈ hist, productQuery t x = some q) := by
  cases g with
  | false =>
    left
    simp only [getProduct, Bool.not_false, if_true, Prod.mk.injEq] at h
    exact h.1.symm
  | true =>
    simp only [getProduct, Bool.not_true, Bool.false_eq_true, if_false] at h
    cases hget : cacheGet c now (CacheKey.product x) with
    | some v =>
      rw [hget] at h
      simp only [Prod.mk.injEq] at h
      cases hfind : c.find? (fun e => e.key == CacheKey.product x && Nat.blt now e.expiry) with
      | none =>
        exfalso
        rw [cacheGet, hfind] at hget
        simp at hget
      | some e =>
        have hval : e.val = v := by
          rw [cacheGet, hfind] at hget
          simpa using hget
        have hemem : e ∈ c := List.mem_of_find?_eq_some hfind
        have hkey : e.key = CacheKey.product x := by
          have := List.find?_some hfind
          simp only [Bool.and_eq_true, beq_iff_eq] at this
          exact this.1
        obtain ⟨t, ht, q, hq, hv⟩ := (hcoh e hemem).1 hkey
        right
        right
        refine ⟨Src.cache, q, ?_, t, ht, hq⟩
        rw [← h.1, hval.symm, hv]
    | none =>
      rw [hget] at h
      cases hq : productQuery s x with
      | none =>
        rw [hq] at h
        simp only [Prod.mk.injEq] at h
        right
        left
        exact ⟨h.1.symm, rfl⟩
      | some q =>
        rw [hq] at h
        cases p with
        | false =>
          left
          simp only [Bool.not_false, if_true, Prod.mk.injEq] at h
          exact h.1.symm
        | true =>
          simp only [Bool.not_true, Bool.false_eq_true, if_false, Prod.mk.injEq] at h
          right
          right
          exact ⟨Src.database, q, h.1.symm, s, hmem, hq⟩

theorem listProducts_fresh (x : Nat) (hist : List Store) (s : Store) (c : Cache)
    (hmem : s ∈ hist) (hcoh : cacheCoh x hist c) (g p : Bool) (now : Nat)
    (res : Except String (Src × CacheValue)) (c2 : Cache)
    (h : listProducts g p now s c = (res, c2)) :
    res = Except.error "Internal server error" ∨
    (∃ src, ∃ t ∈ hist, res = Except.ok (src, CacheValue.many (activeProducts t))) := by
  cases g with
  | false =>
    left
    simp only [listProducts, Bool.not_false, if_true, Prod.mk.injEq] at h
    exact h.1.symm
  | true =>
    simp only [listProducts, Bool.not_true, Bool.false_eq_true, if_false] at h
    cases hget : cacheGet c now CacheKey.productsAll with
    | some v =>
      rw [hget] at h
      simp only [Prod.mk.injEq] at h
      cases hfind : c.find? (fun e => e.key == CacheKey.productsAll && Nat.blt now e.expiry) with
      | none =>
        exfalso
        rw [cacheGet, hfind] at hget
        simp at hget
      | some e =>
        have hval : e.val = v := by
          rw [cacheGet, hfind] at hget
          simpa using hget
        have hemem : e ∈ c := List.mem_of_find?_eq_some hfind
        have hkey : e.key = CacheKey.productsAll := by
          have := List.find?_some hfind
          simp only [Bool.and_eq_true, beq_iff_eq] at this
          exact this.1
        obtain ⟨t, ht, hv⟩ := (hcoh e hemem).2 hkey
        right
        refine ⟨Src.cache, t, ht, ?_⟩
        rw [← h.1, hval.symm, hv]
    | none =>
      rw [hget] at h
      cases p with
      | false =>
        left
        simp only [Bool.not_false, if_true, Prod.mk.injEq] at h
        exact h.1.symm
      | true =>
        simp only [Bool.not_true, Bool.false_eq_true, if_false, Prod.mk.injEq] at h
        right
        exact ⟨Src.database, s, hmem, h.1.symm⟩

theorem cacheCoh_of_deleted (x : Nat) (hist : List Store) (c : Cache) :
    cacheCoh x hist
      (cacheDel (cacheDel c CacheKey.productsAll) (CacheKey.product x)) := by
  intro e he
  have hmf := List.mem_filter.mp he
  have h1 : (e.key != CacheKey.product x) = true := hmf.2
  have h2 : (e.key != CacheKey.productsAll) = true := (List.mem_filter.mp hmf.1).2
  constructor
  · intro hk
    exact absurd hk (by simpa using h1)
  · intro hk
    exact absurd hk (by simpa using h2)

theorem freshViews_of_clean (x : Nat) (s1 : Store) (c1 : Cache)
    (hclean : cacheCoh x [s1] c1) : freshViews x s1 c1 := by
  intro ops
  obtain ⟨hm, hcoh⟩ := run_coh x ops (s1, c1) [s1] (List.mem_singleton.mpr rfl) hclean
  constructor
  · intro g p now res c2 h
    exact getProduct_fresh x (s1 :: tailStores ops (s1, c1)) _ _ hm hcoh g p now res c2 h
  · intro g p now res c2 h
    exact listProducts_fresh x (s1 :: tailStores ops (s1, c1)) _ _ hm hcoh g p now res c2 h

theorem updateProduct_ok_cache (da di : Bool) (i : Nat) (r : ProductReq)
    (s : Store) (c : Cache) (p0 : ProductRow) (s1 : Store) (c1 : Cache)
    (h : updateProduct da di i r s c = (Except.ok p0, s1, c1)) :
    c1 = cacheDel (cacheDel c CacheKey.productsAll) (CacheKey.product i) := by
  simp only [updateProduct] at h
  split at h
  · exact absurd h (by simp)
  · split at h
    · exact absurd h (by simp)
    · split at h
      · exact absurd h (by simp)
      · split at h
        · exact absurd h (by simp)
        · simp only [Prod.mk.injEq] at h
          exact h.2.2.symm

theorem deleteProduct_ok_cache (da di : Bool) (i : Nat) (s : Store) (c : Cache)
    (s1 : Store) (c1 : Cache)
    (h : deleteProduct da di i s c = (Except.ok (), s1, c1)) :
    c1 = cacheDel (cacheDel c CacheKey.productsAll) (CacheKey.product i) := by
  simp only [deleteProduct] at h
  split at h
  · exact absurd h (by simp)
  · split at h
    · exact absurd h (by simp)
    · split at h
      · exact absurd h (by simp)
      · simp only [Prod.mk.injEq] at h
        exact h.2.2.symm

/-- C6: after a successful `update_product` or `delete_product` on product
`x` (success implies both cache deletions succeeded, so neither the
`product:x` nor the `products:all` key survives), every subsequent
`get_product(x)` or `list_products` response — after any further sequence of
API requests — is either an error carrying no data, a genuine not-found
reflecting the current store, or data derived from a store state reached at
or after the mutation; the pre-mutation value is never served, even from the
cache. -/
theorem c6_invalidation_fresh :
    (∀ (da di : Bool) (x : Nat) (r : ProductReq) (s : Store) (c : Cache)
      (p0 : ProductRow) (s1 : Store) (c1 : Cache),
      updateProduct da di x r s c = (Except.ok p0, s1, c1) → freshViews x s1 c1) ∧
    (∀ (da di : Bool) (x : Nat) (s : Store) (c : Cache) (s1 : Store) (c1 : Cache),
      deleteProduct da di x s c = (Except.ok (), s1, c1) → freshViews x s1 c1) := by
  constructor
  · intro da di x r s c p0 s1 c1 h
    have hc := updateProduct_ok_cache da di x r s c p0 s1 c1 h
    subst hc
    exact freshViews_of_clean x s1 _ (cacheCoh_of_deleted x [s1] c)
  · intro da di x s c s1 c1 h
    have hc := deleteProduct_ok_cache da di x s c s1 c1 h
    subst hc
    exact freshViews_of_clean x s1 _ (cacheCoh_of_deleted x [s1] c)

/-- Witness for C6: a concrete successful update renaming product 1 on the
concrete store, with a stale pre-update cache entry present beforehand. -/
theorem c6_invalidation_fresh_witness :
    freshViews 1
      (updateProduct true true 1
        { name := some "Laptop Pro", description := none, price := none,
          category := none, stock := none, image_url := none }
        stA [{ key := CacheKey.product 1, val := CacheValue.one pA, expiry := 1000 }]).2.1
      (updateProduct true true 1
        { name := some "Laptop Pro", description := none, price := none,
          category := none, stock := none, image_url := none }
        stA [{ key := CacheKey.product 1, val := CacheValue.one pA, expiry := 1000 }]).2.2 :=
  c6_invalidation_fresh.1 true true 1
    { name := some "Laptop Pro", description := none, price := none,
      category := none, stock := none, image_url := none }
    stA [{ key := CacheKey.product 1, val := CacheValue.one pA, expiry := 1000 }]
    { id := 1, name := "Laptop Pro", description := none, price := 1000,
      category := "Electronics", stock := 5, image_url := none, is_active := true }
    (updateProduct true true 1
      { name := some "Laptop Pro", description := none, price := none,
        category := none, stock := none, image_url := none }
      stA [{ key := CacheKey.product 1, val := CacheValue.one pA, expiry := 1000 }]).2.1
    (updateProduct true true 1
      { name := some "Laptop Pro", description := none, price := none,
        category := none, stock := none, image_url := none }
      stA [{ key := CacheKey.product 1, val := CacheValue.one pA, expiry := 1000 }]).2.2
    rfl

end ECom
